import Mathlib

/-!
# TI99-4A serial keyboard firmware (`ti99kb2_sdcc.c`)

A shallow embedding of the firmware: the global variables and the port
latches become the fields of `KbState`, every C function becomes a Lean
function of the same name that passes the state explicitly.

* `BYTE` values are natural numbers below 256; arithmetic that can leave
  that range is reduced `% 256` where the C code truncates.
* `char g_cKey` is kept as its 8-bit pattern (the conversion from and to
  `BYTE` keeps the pattern).
* An array access is checked: a function returns `none` when an index is
  outside the array, and a loop model returns `none` when its fuel runs out.
* The only observable output is the serial bus.  Every write to the pins
  `SDA_OUT`, `SCL_OUT` and every call `delms(ms)` with `ms > 0` is appended
  to the field `bus`.  The timer registers used by `delms` to count
  milliseconds are not part of the state.
-/

namespace TI99KB

/-! ## Constants -/

def BUS_HIGH : Nat := 0
def BUS_LOW : Nat := 1
def KEYBUFLEN : Nat := 10
def SIG_DEL : Nat := 4
def KEYRD_DEL : Nat := 115

/-- The 8 x 8 table `g_ucaKbMatrix[row][col]` of scan codes. -/
def g_ucaKbMatrix : List (List Nat) :=
  [ [11, 43, 42, 41, 40, 22,  0, 0],
    [47, 31, 30, 29, 28, 32,  0, 0],
    [33, 20, 19, 18, 17, 21,  0, 0],
    [ 0,  9,  8,  7,  6, 10,  0, 0],
    [48,  2,  3,  4,  5,  1, 45, 0],
    [44, 24, 25, 26, 27, 23,  0, 0],
    [46, 13, 14, 15, 16, 12,  0, 0],
    [ 0, 36, 37, 38, 39, 35,  0, 0] ]

/-! ## State -/

/-- What the firmware does on the serial bus, in program order. -/
inductive BusEvent where
  | sda (pin : Nat)
  | scl (pin : Nat)
  | delay (ms : Nat)
deriving DecidableEq, Repr

/-- The global variables, the port latches and the bus log. -/
structure KbState where
  g_ucKeyCode : Nat
  g_cKey : Nat
  g_ucRow : Nat
  g_ucColumn : Nat
  g_bShiftOn : Bool
  g_bCtrl : Bool
  g_bFunc : Bool
  g_bLock : Bool
  g_bKeyHit : Bool
  g_ucaKeyBuf : List Nat
  g_ucKeyBufStartIndex : Nat
  g_ucKeyBufEndIndex : Nat
  KBP1 : Nat
  KBP2 : Nat
  SDA_OUT : Nat
  SCL_OUT : Nat
  bus : List BusEvent
deriving DecidableEq, Repr

/-- The state given by the static initialisers, with the ports at their
reset value `0xFF` and nothing sent yet. -/
def powerOn : KbState :=
  { g_ucKeyCode := 0, g_cKey := 0, g_ucRow := 0, g_ucColumn := 0,
    g_bShiftOn := false, g_bCtrl := false, g_bFunc := false, g_bLock := false,
    g_bKeyHit := false,
    g_ucaKeyBuf := List.replicate KEYBUFLEN 0,
    g_ucKeyBufStartIndex := 0, g_ucKeyBufEndIndex := 0,
    KBP1 := 0xFF, KBP2 := 0xFF, SDA_OUT := 1, SCL_OUT := 1, bus := [] }

/-- Checked store `a[i] = v`. -/
def store (a : List Nat) (i v : Nat) : Option (List Nat) :=
  if i < a.length then some (a.set i v) else none

/-- Checked load `a[i]`. -/
def load (a : List Nat) (i : Nat) : Option Nat := a[i]?

/-! ## Initialisation -/

def ResetSpecKeysFlags (s : KbState) : KbState :=
  { s with g_bShiftOn := false, g_bLock := false, g_bCtrl := false, g_bFunc := false }

/-- The loop `for (i=0; i<KEYBUFLEN; i++) g_ucaKeyBuf[i] = 0;` of `init_vars`. -/
def init_vars_loop : Nat → Nat → KbState → Option KbState
  | 0, _, _ => none
  | fuel + 1, i, s =>
    if i < KEYBUFLEN then
      (store s.g_ucaKeyBuf i 0).bind fun buf =>
        init_vars_loop fuel ((i + 1) % 256) { s with g_ucaKeyBuf := buf }
    else some s

def init_vars (s : KbState) : Option KbState :=
  let s := { s with g_ucKeyCode := 0xFF }
  let s := { s with g_ucRow := 0 }
  let s := { s with g_ucColumn := 0 }
  let s := { s with g_ucKeyBufEndIndex := 0, g_ucKeyBufStartIndex := 0 }
  let s := { s with g_bKeyHit := false }
  let s := ResetSpecKeysFlags s
  init_vars_loop (KEYBUFLEN + 1) 0 s

/-! ## Ring buffer -/

def add2KeyBuf (kc : Nat) (s : KbState) : Option KbState :=
  (store s.g_ucaKeyBuf s.g_ucKeyBufEndIndex kc).bind fun buf =>
    let s := { s with g_ucaKeyBuf := buf }
    let s := { s with g_ucKeyBufEndIndex := (s.g_ucKeyBufEndIndex + 1) % 256 }
    let s := if s.g_ucKeyBufEndIndex ≥ KEYBUFLEN then { s with g_ucKeyBufEndIndex := 0 } else s
    (store s.g_ucaKeyBuf s.g_ucKeyBufEndIndex 0).bind fun buf =>
      some { s with g_ucaKeyBuf := buf }

def getKeyFromBuf (s : KbState) : Option (Nat × KbState) :=
  let kbk := 0
  if s.g_ucKeyBufStartIndex ≠ s.g_ucKeyBufEndIndex then
    (load s.g_ucaKeyBuf s.g_ucKeyBufStartIndex).bind fun kbk =>
      (store s.g_ucaKeyBuf s.g_ucKeyBufStartIndex 0).bind fun buf =>
        let s := { s with g_ucaKeyBuf := buf }
        let s := { s with g_ucKeyBufStartIndex := (s.g_ucKeyBufStartIndex + 1) % 256 }
        let s := if s.g_ucKeyBufStartIndex ≥ KEYBUFLEN then { s with g_ucKeyBufStartIndex := 0 } else s
        some (kbk, s)
  else some (kbk, s)

/-- Calls `add2KeyBuf` once for each element of the list, in order. -/
def pushAll : List Nat → KbState → Option KbState
  | [], s => some s
  | c :: cs, s => (add2KeyBuf c s).bind (pushAll cs)

/-- Calls `getKeyFromBuf` `n` times and collects the values returned. -/
def popN : Nat → KbState → Option (List Nat × KbState)
  | 0, s => some ([], s)
  | n + 1, s =>
    (getKeyFromBuf s).bind fun r =>
      (popN n r.2).bind fun q => some (r.1 :: q.1, q.2)

/-! ## Delay and serial transmitter -/

/-- `delms(ms)`: busy-waits `ms` timer overflows of one millisecond each; a call with
`ms = 0` returns at once.  The wait is recorded on the bus log. -/
def delms (ms : Nat) (s : KbState) : KbState :=
  if ms > 0 then { s with bus := s.bus ++ [BusEvent.delay ms] } else s

/-- The assignment `SDA_OUT = v`. -/
def set_SDA_OUT (v : Nat) (s : KbState) : KbState :=
  { s with SDA_OUT := v, bus := s.bus ++ [BusEvent.sda v] }

/-- The assignment `SCL_OUT = v`. -/
def set_SCL_OUT (v : Nat) (s : KbState) : KbState :=
  { s with SCL_OUT := v, bus := s.bus ++ [BusEvent.scl v] }

def KbSerial_Start (s : KbState) : KbState :=
  let s := set_SDA_OUT BUS_HIGH s
  let s := set_SCL_OUT BUS_HIGH s
  let s := delms SIG_DEL s
  let s := set_SDA_OUT BUS_LOW s
  let s := set_SCL_OUT BUS_LOW s
  delms SIG_DEL s

def KbSerial_WriteBit (bitval : Bool) (s : KbState) : KbState :=
  let s := set_SDA_OUT (if bitval then BUS_HIGH else BUS_LOW) s
  let s := set_SCL_OUT BUS_HIGH s
  let s := delms SIG_DEL s
  let s := set_SCL_OUT BUS_LOW s
  delms SIG_DEL s

/-- The loop `for (bitc=0; bitc<8; bitc++)` of `KbSerial_WriteByte`. -/
def KbSerial_WriteByte_loop : Nat → Nat → Nat → KbState → Option KbState
  | 0, _, _, _ => none
  | fuel + 1, bitc, byteval, s =>
    if bitc < 8 then
      let s := KbSerial_WriteBit (byteval &&& 0x80 != 0) s
      let byteval := (byteval <<< 1) % 256
      KbSerial_WriteByte_loop fuel ((bitc + 1) % 256) byteval s
    else some s

def KbSerial_WriteByte (sendstart : Bool) (byteval : Nat) (s : KbState) : Option KbState :=
  let s := if sendstart then KbSerial_Start s else s
  KbSerial_WriteByte_loop 256 0 byteval s

def KbSerial_SendKey (kc : Nat) (s : KbState) : Option KbState :=
  let s := set_SDA_OUT BUS_HIGH s
  let s := set_SCL_OUT BUS_HIGH s
  let s := delms SIG_DEL s
  KbSerial_WriteByte true kc s

/-! ## Scan code to character -/

/-- The code of a character constant. -/
def ascii (c : Char) : Nat := c.toNat

/-- `convKeyCode2Char(kc)`; the three flags it reads are passed as arguments.  The
constants 39, 34, 92 and 96 are the quote, the double quote, the backslash and the
backquote; 123 and 125 are the braces. -/
def convKeyCode2Char (g_bShiftOn g_bCtrl g_bFunc : Bool) (kc : Nat) : Nat :=
  match kc with
  | 1 => if g_bShiftOn then ascii '!' else ascii '1'
  | 2 => if g_bShiftOn then ascii '@' else ascii '2'
  | 3 => if g_bShiftOn then ascii '#' else ascii '3'
  | 4 => if g_bShiftOn then ascii '$' else ascii '4'
  | 5 => if g_bShiftOn then ascii '%' else ascii '5'
  | 6 => if g_bShiftOn then ascii '^' else ascii '6'
  | 7 => if g_bShiftOn then ascii '&' else ascii '7'
  | 8 => if g_bShiftOn then ascii '*' else ascii '8'
  | 9 => if g_bShiftOn then ascii '(' else ascii '9'
  | 10 => if g_bShiftOn then ascii ')' else ascii '0'
  | 11 => if g_bShiftOn then ascii '+' else ascii '='
  | 12 => if g_bCtrl then 17 else (if g_bShiftOn then ascii 'Q' else ascii 'q')
  | 13 => if g_bFunc then ascii '~' else (if g_bShiftOn then ascii 'W' else ascii 'w')
  | 14 => if g_bFunc then 128 else (if g_bShiftOn then ascii 'E' else ascii 'e')
  | 15 => if g_bFunc then ascii '[' else (if g_bShiftOn then ascii 'R' else ascii 'r')
  | 16 => if g_bFunc then ascii ']' else (if g_bShiftOn then ascii 'T' else ascii 't')
  | 17 => if g_bShiftOn then ascii 'Y' else ascii 'y'
  | 18 => if g_bFunc then ascii '_' else (if g_bShiftOn then ascii 'U' else ascii 'u')
  | 19 => if g_bFunc then ascii '?' else (if g_bShiftOn then ascii 'I' else ascii 'i')
  | 20 => if g_bFunc then 39 else (if g_bShiftOn then ascii 'O' else ascii 'o')
  | 21 => if g_bFunc then 34 else (if g_bShiftOn then ascii 'P' else ascii 'p')
  | 22 => if g_bShiftOn then ascii '-' else ascii '/'
  | 23 => if g_bFunc then ascii '|' else (if g_bShiftOn then ascii 'A' else ascii 'a')
  | 24 =>
    if g_bCtrl then 19
    else (if g_bFunc then 129 else (if g_bShiftOn then ascii 'S' else ascii 's'))
  | 25 => if g_bFunc then 130 else (if g_bShiftOn then ascii 'D' else ascii 'd')
  | 26 => if g_bFunc then 123 else (if g_bShiftOn then ascii 'F' else ascii 'f')
  | 27 => if g_bFunc then 125 else (if g_bShiftOn then ascii 'G' else ascii 'g')
  | 28 => if g_bCtrl then 8 else (if g_bShiftOn then ascii 'H' else ascii 'h')
  | 29 => if g_bShiftOn then ascii 'J' else ascii 'j'
  | 30 => if g_bShiftOn then ascii 'K' else ascii 'k'
  | 31 => if g_bShiftOn then ascii 'L' else ascii 'l'
  | 32 => if g_bShiftOn then ascii ':' else ascii ';'
  | 33 => 10
  | 35 =>
    if g_bCtrl then 26
    else (if g_bFunc then 92 else (if g_bShiftOn then ascii 'Z' else ascii 'z'))
  | 36 => if g_bFunc then 131 else (if g_bShiftOn then ascii 'X' else ascii 'x')
  | 37 =>
    if g_bCtrl then 3
    else (if g_bFunc then 96 else (if g_bShiftOn then ascii 'C' else ascii 'c'))
  | 38 => if g_bShiftOn then ascii 'V' else ascii 'v'
  | 39 => if g_bShiftOn then ascii 'B' else ascii 'b'
  | 40 => if g_bShiftOn then ascii 'N' else ascii 'n'
  | 41 => if g_bShiftOn then ascii 'M' else ascii 'm'
  | 42 => if g_bShiftOn then ascii '<' else ascii ','
  | 43 => if g_bShiftOn then ascii '>' else ascii '.'
  | 44 => 0
  | 45 => 0
  | 46 => 0
  | 47 => ascii ' '
  | 48 => 0
  | _ => 0

/-! ## Matrix scanner -/

/-- Checked read `g_ucaKbMatrix[row][col]`. -/
def matrixAt (row col : Nat) : Option Nat :=
  g_ucaKbMatrix[row]?.bind fun r => r[col]?

/-- The `switch (kcode)` of `ScanKb` for a contact found at `row`, `col`; `ret` is the
local variable of that name. -/
def ScanKb_switch (row col kcode : Nat) (rs : Nat × KbState) : Nat × KbState :=
  match kcode with
  | 0 => rs
  | 44 => (rs.1, { rs.2 with g_bShiftOn := true })
  | 45 => (rs.1, { rs.2 with g_bShiftOn := true, g_bLock := true })
  | 46 => (rs.1, { rs.2 with g_bCtrl := true })
  | 48 => (rs.1, { rs.2 with g_bFunc := true })
  | _ =>
    ((row + 1) % 256,
      { rs.2 with g_ucRow := row, g_ucColumn := col, g_ucKeyCode := kcode, g_bKeyHit := true })

/-- The inner loop `for (j=1, col=0; j != 0; j <<= 1, col++)` of `ScanKb`.  `keyscan`
and `j` are bytes, so the low eight bits of `~keyscan` are `255 - keyscan` and
`~keyscan & j` is `(255 - keyscan) &&& j`. -/
def ScanKb_cols (keyscan row : Nat) : Nat → Nat → Nat → Nat × KbState → Option (Nat × KbState)
  | 0, _, _, _ => none
  | fuel + 1, j, col, rs =>
    if j ≠ 0 then
      (if (255 - keyscan) &&& j ≠ 0 then
        (matrixAt row col).bind fun kcode => some (ScanKb_switch row col kcode rs)
      else some rs).bind fun rs =>
        ScanKb_cols keyscan row fuel ((j <<< 1) % 256) ((col + 1) % 256) rs
    else some rs

/-- The outer loop `for (row=0, i=1; i != 0; i <<= 1, row++)` of `ScanKb`.  The
keyboard is the function `kb`: `kb p` is the byte read from port `KBP2` while the byte
`p` is driven on port `KBP1`.  `~i` written to the 8-bit port is `255 - i`. -/
def ScanKb_rows (kb : Nat → Nat) : Nat → Nat → Nat → Nat × KbState → Option (Nat × KbState)
  | 0, _, _, _ => none
  | fuel + 1, i, row, rs =>
    if i ≠ 0 then
      let s := { rs.2 with KBP2 := 0xFF }
      let s := { s with KBP1 := 255 - i }
      let keyscan := kb s.KBP1 % 256
      let s := { s with KBP1 := 0xFF }
      (if keyscan ≠ 0xFF then ScanKb_cols keyscan row 256 1 0 (rs.1, s)
      else some (rs.1, s)).bind fun rs =>
        ScanKb_rows kb fuel ((i <<< 1) % 256) ((row + 1) % 256) rs
    else some rs

/-- `ScanKb()`: the value returned and the new state. -/
def ScanKb (kb : Nat → Nat) (s : KbState) : Option (Nat × KbState) :=
  if s.g_bKeyHit then some (0, s)
  else
    let s := { s with g_ucKeyCode := 0 }
    let s := { s with g_cKey := 0 }
    let s := ResetSpecKeysFlags s
    (ScanKb_rows kb 256 1 0 (0, s)).bind fun rs =>
      let s := rs.2
      let s :=
        if s.g_bKeyHit && s.g_ucKeyCode != 0 then
          { s with g_cKey := convKeyCode2Char s.g_bShiftOn s.g_bCtrl s.g_bFunc s.g_ucKeyCode }
        else s
      some (rs.1, s)

/-! ## Key hit consumption and main loop -/

def GetScannedKey (s : KbState) : Option KbState :=
  if s.g_bKeyHit then
    (if s.g_cKey ≠ 0 then (add2KeyBuf s.g_cKey s).bind fun s => some (delms KEYRD_DEL s)
    else some s).bind fun s => some { s with g_bKeyHit := false }
  else some s

/-- `init_ports()`: `P1 = 0xFF` raises both output pins, then they are cleared.  The
input pins and the pins of `P1` that the firmware never uses are not part of the state. -/
def init_ports (s : KbState) : KbState :=
  let s := { s with KBP1 := 0xFF }
  let s := { s with KBP2 := 0xFF }
  let s := set_SCL_OUT 1 (set_SDA_OUT 1 s)
  let s := set_SDA_OUT 0 s
  set_SCL_OUT 0 s

/-- The loop `while ((key = getKeyFromBuf()) != 0) KbSerial_SendKey(key);` of `main`. -/
def main_drain : Nat → KbState → Option KbState
  | 0, _ => none
  | fuel + 1, s =>
    (getKeyFromBuf s).bind fun r =>
      if r.1 ≠ 0 then (KbSerial_SendKey r.1 r.2).bind (main_drain fuel) else some r.2

/-- The part of `main` before the endless loop.  `init_SFR` only programs the timer
registers, which are not part of the state. -/
def main_init (s : KbState) : Option KbState :=
  (init_vars s).bind fun s =>
    let s := init_ports s
    let s := delms 1000 s
    KbSerial_SendKey 0 s

/-- One pass through the body of `while(TRUE)` in `main`, with keyboard `kb`. -/
def main_iteration (kb : Nat → Nat) (s : KbState) : Option KbState :=
  (ScanKb kb s).bind fun rs =>
    (GetScannedKey rs.2).bind fun s => main_drain 256 s

/-! ## Definitions used to state the properties -/

/-- The state `init_vars` leaves behind. -/
def initialised (s : KbState) : KbState :=
  { s with g_ucKeyCode := 0xFF, g_ucRow := 0, g_ucColumn := 0,
           g_ucKeyBufStartIndex := 0, g_ucKeyBufEndIndex := 0, g_bKeyHit := false,
           g_bShiftOn := false, g_bLock := false, g_bCtrl := false, g_bFunc := false,
           g_ucaKeyBuf := List.replicate KEYBUFLEN 0 }

/-- The buffer array has its ten slots and both indexes are inside it. -/
def BufOk (s : KbState) : Prop :=
  s.g_ucaKeyBuf.length = KEYBUFLEN ∧ s.g_ucKeyBufStartIndex < KEYBUFLEN ∧
    s.g_ucKeyBufEndIndex < KEYBUFLEN

/-- The successor of a buffer index, with wrap-around. -/
def nextIndex (i : Nat) : Nat := if i + 1 ≥ KEYBUFLEN then 0 else i + 1

/-- The `n` slots starting at the head index, in ring order. -/
def ringContents (s : KbState) (n : Nat) : List Nat :=
  (List.range n).map fun i => s.g_ucaKeyBuf.getD ((s.g_ucKeyBufStartIndex + i) % KEYBUFLEN) 0

/-- The state after `add2KeyBuf kc` when the indexes are in range. -/
def pushed (kc : Nat) (s : KbState) : KbState :=
  { s with
    g_ucaKeyBuf :=
      (s.g_ucaKeyBuf.set s.g_ucKeyBufEndIndex kc).set (nextIndex s.g_ucKeyBufEndIndex) 0,
    g_ucKeyBufEndIndex := nextIndex s.g_ucKeyBufEndIndex }

/-- The state after `getKeyFromBuf` took a byte out when the indexes are in range. -/
def popped (s : KbState) : KbState :=
  { s with
    g_ucaKeyBuf := s.g_ucaKeyBuf.set s.g_ucKeyBufStartIndex 0,
    g_ucKeyBufStartIndex := nextIndex s.g_ucKeyBufStartIndex }

/-- The two logical levels of a bus line. -/
inductive Level where
  | HIGH
  | LOW
deriving DecidableEq, Repr

/-- The value written to an output pin for a logical level (the pins are inverted). -/
def Level.pin : Level → Nat
  | Level.HIGH => BUS_HIGH
  | Level.LOW => BUS_LOW

/-- The level that stands for a data bit: HIGH for 1, LOW for 0. -/
def Level.ofBit (b : Bool) : Level := if b then Level.HIGH else Level.LOW

/-- The bits of a byte, most significant first. -/
def bitsMSB (b : Nat) : List Bool := [7, 6, 5, 4, 3, 2, 1, 0].map fun i => b.testBit i

/-- The frame of one byte as the sequence of holds (data level, clock level, ms): idle
reset, start sequence, then each bit with clock HIGH and with clock LOW. -/
def frameLevels (b : Nat) : List (Level × Level × Nat) :=
  [(Level.HIGH, Level.HIGH, 4)] ++
  [(Level.HIGH, Level.HIGH, 4), (Level.LOW, Level.LOW, 4)] ++
  (bitsMSB b).flatMap fun bit =>
    [(Level.ofBit bit, Level.HIGH, 4), (Level.ofBit bit, Level.LOW, 4)]

/-- The frame of one byte as pin writes and delays: the data pin is written once per
bit, before the clock pulse. -/
def frameEvents (b : Nat) : List BusEvent :=
  [BusEvent.sda Level.HIGH.pin, BusEvent.scl Level.HIGH.pin, BusEvent.delay 4] ++
  [BusEvent.sda Level.HIGH.pin, BusEvent.scl Level.HIGH.pin, BusEvent.delay 4,
   BusEvent.sda Level.LOW.pin, BusEvent.scl Level.LOW.pin, BusEvent.delay 4] ++
  (bitsMSB b).flatMap fun bit =>
    [BusEvent.sda (Level.ofBit bit).pin, BusEvent.scl Level.HIGH.pin, BusEvent.delay 4,
     BusEvent.scl Level.LOW.pin, BusEvent.delay 4]

/-- The pin values (data, clock) held during each delay of a bus log, and the length of
the delay, when the log starts with the pins at `sda`, `scl`. -/
def holds : Nat → Nat → List BusEvent → List (Nat × Nat × Nat)
  | _, _, [] => []
  | _, scl, BusEvent.sda v :: es => holds v scl es
  | sda, _, BusEvent.scl v :: es => holds sda v es
  | sda, scl, BusEvent.delay ms :: es => (sda, scl, ms) :: holds sda scl es

/-- Control changes what the scan code resolves to, for some setting of the other flags. -/
def hasCtrlMapping (kc : Nat) : Bool :=
  [false, true].any fun sh => [false, true].any fun fn =>
    convKeyCode2Char sh true fn kc != convKeyCode2Char sh false fn kc

/-- Function changes what the scan code resolves to, for some setting of the other flags. -/
def hasFuncMapping (kc : Nat) : Bool :=
  [false, true].any fun sh => [false, true].any fun c =>
    convKeyCode2Char sh c true kc != convKeyCode2Char sh c false kc

/-- The four modifier scan codes: shift, shift-lock, control, function. -/
def isModifierCode (kc : Nat) : Bool := kc == 44 || kc == 45 || kc == 46 || kc == 48

/-- The scan codes of the key matrix that are neither 0 nor a modifier code, in matrix
order. -/
def printableMatrixCodes : List Nat :=
  g_ucaKbMatrix.flatten.filter fun kc => kc != 0 && !isModifierCode kc

/-- The documented table: scan code, unshifted character, shifted character. -/
def documentedTable : List (Nat × Char × Char) :=
  [ (1, '1', '!'), (2, '2', '@'), (3, '3', '#'), (4, '4', '$'), (5, '5', '%'),
    (6, '6', '^'), (7, '7', '&'), (8, '8', '*'), (9, '9', '('), (10, '0', ')'),
    (12, 'q', 'Q'), (13, 'w', 'W'), (14, 'e', 'E'), (15, 'r', 'R'), (16, 't', 'T'),
    (17, 'y', 'Y'), (18, 'u', 'U'), (19, 'i', 'I'), (20, 'o', 'O'), (21, 'p', 'P'),
    (23, 'a', 'A'), (24, 's', 'S'), (25, 'd', 'D'), (26, 'f', 'F'), (27, 'g', 'G'),
    (28, 'h', 'H'), (29, 'j', 'J'), (30, 'k', 'K'), (31, 'l', 'L'),
    (35, 'z', 'Z'), (36, 'x', 'X'), (37, 'c', 'C'), (38, 'v', 'V'), (39, 'b', 'B'),
    (40, 'n', 'N'), (41, 'm', 'M'),
    (11, '=', '+'), (22, '/', '-'), (32, ';', ':'), (42, ',', '<'), (43, '.', '>'),
    (33, Char.ofNat 10, Char.ofNat 10), (47, ' ', ' ') ]

/-- The column byte read from `KBP2` while row `row` is driven low (`KBP1 = ~(1 << row)`). -/
def keyscanOf (kb : Nat → Nat) (row : Nat) : Nat := kb (255 - 2 ^ row) % 256

/-- The position is reported pressed: bit `col` of the column byte of `row` is 0. -/
def pressedAt (kb : Nat → Nat) (row col : Nat) : Bool := !(keyscanOf kb row).testBit col

/-- The scan code at a matrix position (0 outside the table). -/
def codeAt (row col : Nat) : Nat := (matrixAt row col).getD 0

/-- A scan code that is neither 0 nor a modifier code. -/
def isPrintableCode (kc : Nat) : Bool := kc != 0 && !isModifierCode kc

/-- The 64 matrix positions in the order `ScanKb` visits them: row by row, and in each
row from column bit 0 to column bit 7. -/
def scanOrder : List (Nat × Nat) :=
  (List.range 8).flatMap fun row => (List.range 8).map fun col => (row, col)

/-- The positions among `l` reported pressed whose code is printable, in the order of `l`. -/
def pressedPrintableIn (kb : Nat → Nat) (l : List (Nat × Nat)) : List (Nat × Nat) :=
  l.filter fun p => pressedAt kb p.1 p.2 && isPrintableCode (codeAt p.1 p.2)

/-- The set P: the positions reported pressed whose code is printable, in scan order. -/
def pressedPrintable (kb : Nat → Nat) : List (Nat × Nat) := pressedPrintableIn kb scanOrder

/-- Some position among `l` with scan code `kc` is reported pressed. -/
def codePressedIn (kb : Nat → Nat) (l : List (Nat × Nat)) (kc : Nat) : Bool :=
  l.any fun p => pressedAt kb p.1 p.2 && codeAt p.1 p.2 == kc

/-- Some position of the matrix with scan code `kc` is reported pressed. -/
def codePressed (kb : Nat → Nat) (kc : Nat) : Bool := codePressedIn kb scanOrder kc

/-- What `ScanKb` does for one matrix position. -/
def keyStep (kb : Nat → Nat) (rs : Nat × KbState) (p : Nat × Nat) : Nat × KbState :=
  if pressedAt kb p.1 p.2 then ScanKb_switch p.1 p.2 (codeAt p.1 p.2) rs else rs

/-- The eight positions of a row, from column bit 0 to column bit 7. -/
def rowPositions (row : Nat) : List (Nat × Nat) := (List.range' 0 8).map fun col => (row, col)

/-- The port writes `ScanKb` makes for each row, as left behind after the row. -/
def setScanPorts (rs : Nat × KbState) : Nat × KbState :=
  (rs.1, { rs.2 with KBP2 := 0xFF, KBP1 := 0xFF })

/-- What `ScanKb` does for one row. -/
def rowStep (kb : Nat → Nat) (rs : Nat × KbState) (row : Nat) : Nat × KbState :=
  (rowPositions row).foldl (keyStep kb) (setScanPorts rs)

/-- The effect of visiting the positions `l` in order, stated without a loop: each
modifier flag is raised when its code is pressed among `l`, and the last pressed printable
position of `l`, when there is one, is latched. -/
def scanned (kb : Nat → Nat) (l : List (Nat × Nat)) (rs : Nat × KbState) : Nat × KbState :=
  let s := { rs.2 with
    g_bShiftOn := rs.2.g_bShiftOn || codePressedIn kb l 44 || codePressedIn kb l 45,
    g_bLock := rs.2.g_bLock || codePressedIn kb l 45,
    g_bCtrl := rs.2.g_bCtrl || codePressedIn kb l 46,
    g_bFunc := rs.2.g_bFunc || codePressedIn kb l 48 }
  match (pressedPrintableIn kb l).getLast? with
  | none => (rs.1, s)
  | some p =>
    ((p.1 + 1) % 256,
      { s with g_ucRow := p.1, g_ucColumn := p.2, g_ucKeyCode := codeAt p.1 p.2,
               g_bKeyHit := true })

/-- The value returned by `ScanKb` and the state it leaves, for a state with no key hit
pending, stated without loops. -/
def scanResult (kb : Nat → Nat) (s : KbState) : Nat × KbState :=
  let shift := codePressed kb 44 || codePressed kb 45
  let lock := codePressed kb 45
  let ctrl := codePressed kb 46
  let func := codePressed kb 48
  match (pressedPrintable kb).getLast? with
  | none =>
    (0, { s with g_ucKeyCode := 0, g_cKey := 0, g_bShiftOn := shift, g_bLock := lock,
                 g_bCtrl := ctrl, g_bFunc := func, KBP1 := 0xFF, KBP2 := 0xFF })
  | some p =>
    (p.1 + 1, { s with g_ucKeyCode := codeAt p.1 p.2,
                       g_cKey := convKeyCode2Char shift ctrl func (codeAt p.1 p.2),
                       g_ucRow := p.1, g_ucColumn := p.2, g_bKeyHit := true,
                       g_bShiftOn := shift, g_bLock := lock, g_bCtrl := ctrl, g_bFunc := func,
                       KBP1 := 0xFF, KBP2 := 0xFF })

/-- Calls `ScanKb` once for each keyboard input of the list, in order, and collects the
values returned. -/
def ScanKb_repeat : List (Nat → Nat) → KbState → Option (List Nat × KbState)
  | [], s => some ([], s)
  | kb :: kbs, s =>
    (ScanKb kb s).bind fun r =>
      (ScanKb_repeat kbs r.2).bind fun q => some (r.1 :: q.1, q.2)

/-- A keyboard on which only the key with scan code 1 (row 4, column 5) is pressed. -/
def kbScanCode1 : Nat → Nat := fun p => if p = 255 - 2 ^ 4 then 255 - 2 ^ 5 else 255

/-- A keyboard on which only the key with scan code 24 (row 5, column 1) is pressed. -/
def kbScanCode24 : Nat → Nat := fun p => if p = 255 - 2 ^ 5 then 255 - 2 ^ 1 else 255

/-- A state with the key hit for scan code 1 pending. -/
def pendingState : KbState :=
  { powerOn with g_ucKeyCode := 1, g_cKey := 49, g_ucRow := 4, g_ucColumn := 5,
                 g_bKeyHit := true }

/-- Scan order on positions: smaller row first, then smaller column bit. -/
def scannedBefore (a b : Nat × Nat) : Prop := a.1 < b.1 ∨ (a.1 = b.1 ∧ a.2 < b.2)

instance (a b : Nat × Nat) : Decidable (scannedBefore a b) := by
  unfold scannedBefore; infer_instance

/-- A keyboard on which only the shift-lock key (scan code 45, row 4, column 6) is
pressed. -/
def kbShiftLock : Nat → Nat := fun p => if p = 255 - 2 ^ 4 then 255 - 2 ^ 6 else 255

/-- A keyboard on which the key with scan code 1 (row 4, column 5) and the shift key
(scan code 44, row 5, column 0) are pressed. -/
def kbShift1 : Nat → Nat := fun p =>
  if p = 255 - 2 ^ 4 then 255 - 2 ^ 5 else if p = 255 - 2 ^ 5 then 255 - 2 ^ 0 else 255

/-- One call on the ring buffer: `add2KeyBuf(kc)` or `getKeyFromBuf()`. -/
inductive BufOp where
  | push (kc : Nat)
  | pop
deriving DecidableEq, Repr

/-- Makes the calls of the list in order (the values popped are dropped). -/
def runBufOps : List BufOp → KbState → Option KbState
  | [], s => some s
  | BufOp.push kc :: ops, s => (add2KeyBuf kc s).bind (runBufOps ops)
  | BufOp.pop :: ops, s => (getKeyFromBuf s).bind fun r => runBufOps ops r.2

instance (s : KbState) : Decidable (BufOk s) := by
  unfold BufOk; infer_instance

/-- Runs the body of the endless loop of `main` once for each keyboard input of the list,
in order. -/
def main_run : List (Nat → Nat) → KbState → Option KbState
  | [], s => some s
  | kb :: kbs, s => (main_iteration kb s).bind (main_run kbs)

/-- The number of bytes waiting in the ring buffer: the distance from head to tail. -/
def bufCount (s : KbState) : Nat :=
  (s.g_ucKeyBufEndIndex + KEYBUFLEN - s.g_ucKeyBufStartIndex) % KEYBUFLEN

/-- What holds at the top of the loop of `main`: the buffer is well formed and empty and
no key hit is pending. -/
def LoopTop (s : KbState) : Prop :=
  BufOk s ∧ s.g_ucKeyBufStartIndex = s.g_ucKeyBufEndIndex ∧ s.g_bKeyHit = false

instance (s : KbState) : Decidable (LoopTop s) := by
  unfold LoopTop; infer_instance

/-- A keyboard on which the function key (scan code 48, row 4, column 0) and the key with
scan code 14 (row 6, column 2) are pressed. -/
def kbFuncE : Nat → Nat := fun p =>
  if p = 255 - 2 ^ 4 then 255 - 2 ^ 0 else if p = 255 - 2 ^ 6 then 255 - 2 ^ 2 else 255

/-- The value of a `char` variable holding the 8-bit pattern `b`, when `char` is signed. -/
def charOfByte (b : Nat) : Int := if b < 128 then (b : Int) else (b : Int) - 256

/-- The conversion of a `char` value to `BYTE`: reduction modulo 256. -/
def byteOfChar (c : Int) : Nat := (c % 256).toNat

/-- What the receiver reads on its input pin for the value the firmware writes to the
output pin: the pins are inverted, so 0 (HIGH) is read as 1 and 1 (LOW) as 0. -/
def lineLevel (pin : Nat) : Nat := if pin = BUS_HIGH then 1 else 0

/-- The line as the receiver sees it during each hold of a bus log: the pair
(SDA input, SCL input). -/
def lineOf (sda scl : Nat) (ev : List BusEvent) : List (Nat × Nat) :=
  (holds sda scl ev).map fun h => (lineLevel h.1, lineLevel h.2.1)

/-- Start detection of the receiver described in the header comment of the source
(`SDA=SCL=1, SDA=SCL=0`): the line from the hold with both inputs 0 that follows a hold
with both inputs 1. -/
def afterStart : List (Nat × Nat) → Option (List (Nat × Nat))
  | [] => none
  | h :: rest =>
    match rest with
    | [] => none
    | h1 :: _ => if h = (1, 1) ∧ h1 = (0, 0) then some rest else afterStart rest

/-- `repeat while ina[SCL_pin] == v` of the example receiver in the header comment: the
receiver stays in the loop while the clock input is `v`. -/
def waitWhileSCL (v : Nat) (line : List (Nat × Nat)) : List (Nat × Nat) :=
  line.dropWhile fun h => h.2 == v

/-- The loop `repeat 8` of the example receiver `get_byte` in the header comment of the
source: wait while the clock is `w1`, wait while the clock is `w2`, then
`b := (b << 1) | ina[SDA_pin]`.  The header gives `w1 = 1`, `w2 = 0` and notes that the
other way round works as well.  `none` when the line ends while the receiver waits. -/
def get_byte_loop (w1 w2 : Nat) : Nat → Nat → List (Nat × Nat) → Option Nat
  | 0, b, _ => some b
  | n + 1, b, line =>
    match waitWhileSCL w2 (waitWhileSCL w1 line) with
    | [] => none
    | h :: rest => get_byte_loop w1 w2 n ((b <<< 1) ||| h.1) (h :: rest)

/-- The example receiver `get_byte` of the header comment: `b := 0`, the loop, and
`return (b & $FF)`. -/
def get_byte (w1 w2 : Nat) (line : List (Nat × Nat)) : Option Nat :=
  (get_byte_loop w1 w2 8 0 line).map fun b => b &&& 0xFF

/-! ## Ring buffer: auxiliary facts -/

theorem list_length_ten {a : List Nat} (h : a.length = 10) :
    ∃ a0 a1 a2 a3 a4 a5 a6 a7 a8 a9, a = [a0, a1, a2, a3, a4, a5, a6, a7, a8, a9] := by
  match a, h with
  | [a0, a1, a2, a3, a4, a5, a6, a7, a8, a9], _ => exact ⟨_, _, _, _, _, _, _, _, _, _, rfl⟩

theorem init_vars_eq (s : KbState) (h : s.g_ucaKeyBuf.length = KEYBUFLEN) :
    init_vars s = some (initialised s) := by
  obtain ⟨a0, a1, a2, a3, a4, a5, a6, a7, a8, a9, ha⟩ := list_length_ten h
  cases s
  simp only at ha
  subst ha
  rfl

theorem add2KeyBuf_ok (kc : Nat) (s : KbState) (h : BufOk s) :
    add2KeyBuf kc s = some (pushed kc s) := by
  unfold pushed
  obtain ⟨hl, -, ht⟩ := h
  simp only [KEYBUFLEN] at hl ht
  have h1 : (s.g_ucKeyBufEndIndex + 1) % 256 = s.g_ucKeyBufEndIndex + 1 := by omega
  by_cases h2 : s.g_ucKeyBufEndIndex + 1 ≥ 10
  · simp [add2KeyBuf, store, nextIndex, KEYBUFLEN, hl, ht, h1, h2]
  · have h3 : s.g_ucKeyBufEndIndex + 1 < 10 := by omega
    simp [add2KeyBuf, store, nextIndex, KEYBUFLEN, hl, ht, h1, h2, h3]

theorem getKeyFromBuf_empty (s : KbState)
    (h : s.g_ucKeyBufStartIndex = s.g_ucKeyBufEndIndex) : getKeyFromBuf s = some (0, s) := by
  simp [getKeyFromBuf, h]

theorem getKeyFromBuf_ok (s : KbState) (h : BufOk s)
    (hne : s.g_ucKeyBufStartIndex ≠ s.g_ucKeyBufEndIndex) :
    getKeyFromBuf s = some (s.g_ucaKeyBuf.getD s.g_ucKeyBufStartIndex 0, popped s) := by
  unfold popped
  obtain ⟨hl, hh, -⟩ := h
  simp only [KEYBUFLEN] at hl hh
  have h1 : (s.g_ucKeyBufStartIndex + 1) % 256 = s.g_ucKeyBufStartIndex + 1 := by omega
  have h0 : s.g_ucKeyBufStartIndex < s.g_ucaKeyBuf.length := by omega
  by_cases h2 : s.g_ucKeyBufStartIndex + 1 ≥ 10
  · simp [getKeyFromBuf, store, load, nextIndex, KEYBUFLEN, hl, hh, h1, h2, hne, h0]
  · have h3 : s.g_ucKeyBufStartIndex + 1 < 10 := by omega
    simp [getKeyFromBuf, store, load, nextIndex, KEYBUFLEN, hl, hh, h1, h2, h3, hne, h0]

theorem add2KeyBuf_ring (c : Nat) (s : KbState) (n : Nat) (h : BufOk s) (hn : n ≤ 8)
    (ht : s.g_ucKeyBufEndIndex = (s.g_ucKeyBufStartIndex + n) % KEYBUFLEN) :
    ∃ s1, add2KeyBuf c s = some s1 ∧ BufOk s1 ∧
      s1.g_ucKeyBufStartIndex = s.g_ucKeyBufStartIndex ∧
      s1.g_ucKeyBufEndIndex = (s.g_ucKeyBufStartIndex + (n + 1)) % KEYBUFLEN ∧
      ringContents s1 (n + 1) = ringContents s n ++ [c] := by
  refine ⟨_, add2KeyBuf_ok c s h, ?_, rfl, ?_, ?_⟩ <;> unfold pushed
  · obtain ⟨hl, hh, he⟩ := h
    refine ⟨by simpa using hl, hh, ?_⟩
    simp only [nextIndex, KEYBUFLEN]
    split <;> omega
  · obtain ⟨hl, hh, he⟩ := h
    simp only [nextIndex, KEYBUFLEN] at *
    split <;> omega
  · obtain ⟨hl, hh, he⟩ := h
    simp only [KEYBUFLEN] at hl hh he ht
    simp only [ringContents, List.range_succ, List.map_append, List.map_cons, List.map_nil]
    congr 1
    · apply List.map_congr_left
      intro i hi
      have hi : i < n := List.mem_range.mp hi
      simp only [nextIndex, KEYBUFLEN]
      rw [List.getD_eq_getElem?_getD, List.getD_eq_getElem?_getD,
        List.getElem?_set_ne (by split <;> omega), List.getElem?_set_ne (by omega)]
    · simp only [nextIndex, KEYBUFLEN, List.cons.injEq, and_true]
      rw [List.getD_eq_getElem?_getD, List.getElem?_set_ne (by split <;> omega), ← ht,
        List.getElem?_set_self (by omega)]
      rfl

theorem pushAll_ring (cs : List Nat) : ∀ (s : KbState) (n : Nat), BufOk s → n + cs.length ≤ 9 →
    s.g_ucKeyBufEndIndex = (s.g_ucKeyBufStartIndex + n) % KEYBUFLEN →
    ∃ s1, pushAll cs s = some s1 ∧ BufOk s1 ∧
      s1.g_ucKeyBufStartIndex = s.g_ucKeyBufStartIndex ∧
      s1.g_ucKeyBufEndIndex = (s.g_ucKeyBufStartIndex + (n + cs.length)) % KEYBUFLEN ∧
      ringContents s1 (n + cs.length) = ringContents s n ++ cs := by
  induction cs with
  | nil => intro s n h _ ht; exact ⟨s, rfl, h, rfl, by simpa using ht, by simp⟩
  | cons c cs ih =>
    intro s n h hn ht
    simp only [List.length_cons] at hn
    obtain ⟨s1, e1, ok1, hh1, ht1, hc1⟩ := add2KeyBuf_ring c s n h (by omega) ht
    obtain ⟨s2, e2, ok2, hh2, ht2, hc2⟩ := ih s1 (n + 1) ok1 (by omega) (by rw [ht1, hh1])
    refine ⟨s2, by simp [pushAll, e1, e2], ok2, by rw [hh2, hh1], ?_, ?_⟩
    · rw [ht2, hh1]; simp only [List.length_cons]; congr 2; omega
    · have : n + (c :: cs).length = n + 1 + cs.length := by simp only [List.length_cons]; omega
      rw [this, hc2, hc1]; simp

theorem getKeyFromBuf_ring (s : KbState) (n : Nat) (h : BufOk s) (hn : n + 1 ≤ 9)
    (ht : s.g_ucKeyBufEndIndex = (s.g_ucKeyBufStartIndex + (n + 1)) % KEYBUFLEN) :
    ∃ c s1, getKeyFromBuf s = some (c, s1) ∧ BufOk s1 ∧
      s1.g_ucKeyBufEndIndex = s.g_ucKeyBufEndIndex ∧
      s1.g_ucKeyBufEndIndex = (s1.g_ucKeyBufStartIndex + n) % KEYBUFLEN ∧
      ringContents s (n + 1) = c :: ringContents s1 n := by
  have hne : s.g_ucKeyBufStartIndex ≠ s.g_ucKeyBufEndIndex := by
    obtain ⟨-, hh, -⟩ := h
    simp only [KEYBUFLEN] at hh ht
    omega
  refine ⟨_, _, getKeyFromBuf_ok s h hne, ?_, rfl, ?_, ?_⟩ <;> unfold popped
  · obtain ⟨hl, hh, he⟩ := h
    refine ⟨by simpa using hl, ?_, he⟩
    simp only [nextIndex, KEYBUFLEN]
    split <;> omega
  · obtain ⟨hl, hh, he⟩ := h
    simp only [nextIndex, KEYBUFLEN] at *
    split <;> omega
  · obtain ⟨hl, hh, he⟩ := h
    simp only [KEYBUFLEN] at hl hh he ht
    simp only [ringContents, List.range_succ_eq_map, List.map_cons, List.map_map, KEYBUFLEN,
      Nat.add_zero]
    congr 1
    · rw [Nat.mod_eq_of_lt hh]
    · apply List.map_congr_left
      intro i hi
      have hi : i < n := List.mem_range.mp hi
      simp only [nextIndex, KEYBUFLEN, Function.comp]
      rw [List.getD_eq_getElem?_getD, List.getD_eq_getElem?_getD,
        List.getElem?_set_ne (by split <;> omega)]
      congr 2
      split <;> omega

theorem popN_empty (n : Nat) (s : KbState)
    (h : s.g_ucKeyBufStartIndex = s.g_ucKeyBufEndIndex) :
    popN n s = some (List.replicate n 0, s) := by
  induction n with
  | zero => rfl
  | succ n ih => simp [popN, getKeyFromBuf_empty s h, ih, List.replicate_succ]

theorem popN_ring (n : Nat) : ∀ (s : KbState), BufOk s → n ≤ 9 →
    s.g_ucKeyBufEndIndex = (s.g_ucKeyBufStartIndex + n) % KEYBUFLEN →
    ∃ s1, popN n s = some (ringContents s n, s1) ∧ BufOk s1 ∧
      s1.g_ucKeyBufStartIndex = s1.g_ucKeyBufEndIndex ∧
      s1.g_ucKeyBufEndIndex = s.g_ucKeyBufEndIndex := by
  induction n with
  | zero =>
    intro s h _ ht
    refine ⟨s, rfl, h, ?_, rfl⟩
    obtain ⟨-, hh, -⟩ := h
    simp only [KEYBUFLEN] at hh ht
    omega
  | succ n ih =>
    intro s h hn ht
    obtain ⟨c, s1, e1, ok1, ht1, hr1, hc1⟩ := getKeyFromBuf_ring s n h hn ht
    obtain ⟨s2, e2, ok2, hh2, ht2⟩ := ih s1 ok1 (by omega) hr1
    exact ⟨s2, by simp [popN, e1, e2, hc1], ok2, hh2, by rw [ht2, ht1]⟩

theorem initialised_ok (s : KbState) : BufOk (initialised s) := by
  simp [BufOk, initialised, KEYBUFLEN]

theorem ringContents_zero (s : KbState) : ringContents s 0 = [] := rfl

/-- From an empty well-formed buffer, up to nine pushes followed by as many pops give
back the pushed bytes in order, and leave the buffer empty. -/
theorem ring_fifo (s : KbState) (cs : List Nat) (h : BufOk s)
    (he : s.g_ucKeyBufStartIndex = s.g_ucKeyBufEndIndex) (hK : cs.length ≤ 9) :
    ∃ s1 s2, pushAll cs s = some s1 ∧ popN cs.length s1 = some (cs, s2) ∧ BufOk s2 ∧
      s2.g_ucKeyBufStartIndex = s2.g_ucKeyBufEndIndex ∧
      s2.g_ucKeyBufEndIndex = (s.g_ucKeyBufStartIndex + cs.length) % KEYBUFLEN := by
  have ht : s.g_ucKeyBufEndIndex = (s.g_ucKeyBufStartIndex + 0) % KEYBUFLEN := by
    obtain ⟨-, hh, -⟩ := h
    simp only [KEYBUFLEN] at hh ⊢
    omega
  obtain ⟨s1, e1, ok1, hh1, ht1, hc1⟩ := pushAll_ring cs s 0 h (by omega) ht
  simp only [Nat.zero_add, ringContents_zero, List.nil_append] at ht1 hc1
  obtain ⟨s2, e2, ok2, hh2, ht2⟩ := popN_ring cs.length s1 ok1 hK (by rw [ht1, hh1])
  exact ⟨s1, s2, e1, by rw [e2, hc1], ok2, hh2, by rw [ht2, ht1]⟩

theorem pushAll_append (a b : List Nat) : ∀ s : KbState,
    pushAll (a ++ b) s = (pushAll a s).bind (pushAll b) := by
  induction a with
  | nil => intro s; rfl
  | cons c a ih =>
    intro s
    simp only [List.cons_append, pushAll]
    cases add2KeyBuf c s with
    | none => rfl
    | some s1 => simpa using ih s1

theorem initialised_empty (s : KbState) :
    (initialised s).g_ucKeyBufStartIndex = (initialised s).g_ucKeyBufEndIndex := rfl

/-- C1 (amended): for K ≤ 10 characters pushed onto the buffer set up by init_vars, the K
pops that follow return the characters in FIFO order when K ≤ 9, and return 0 ten times
when K = 10 (head = tail again, the buffer looks empty); one further pop returns 0. -/
theorem C1_fifo_capacity_nine (s : KbState) (cs : List Nat)
    (hs : s.g_ucaKeyBuf.length = KEYBUFLEN) (hK : cs.length ≤ 10) :
    ∃ s0 s1 s2, init_vars s = some s0 ∧ pushAll cs s0 = some s1 ∧
      popN cs.length s1 = some (if cs.length = 10 then List.replicate 10 0 else cs, s2) ∧
      getKeyFromBuf s2 = some (0, s2) := by
  by_cases h10 : cs.length = 10
  · obtain ⟨c, hc⟩ : ∃ c, cs = cs.dropLast ++ [c] :=
      ⟨cs.getLast (by intro h; simp [h] at h10), (List.dropLast_append_getLast _).symm⟩
    have hl : cs.dropLast.length = 9 := by simp [h10]
    obtain ⟨s1, e1, ok1, hh1, ht1, -⟩ :=
      pushAll_ring cs.dropLast (initialised s) 0 (initialised_ok s) (by omega) rfl
    have hh1 : s1.g_ucKeyBufStartIndex = 0 := hh1
    have ht1 : s1.g_ucKeyBufEndIndex = 9 := by rw [ht1, hl]; rfl
    have hemp : (pushed c s1).g_ucKeyBufStartIndex = (pushed c s1).g_ucKeyBufEndIndex := by
      simp [pushed, hh1, ht1, nextIndex, KEYBUFLEN]
    refine ⟨_, pushed c s1, pushed c s1, init_vars_eq s hs, ?_, ?_, getKeyFromBuf_empty _ hemp⟩
    · rw [hc, pushAll_append, e1]
      simp [pushAll, add2KeyBuf_ok c s1 ok1]
    · rw [if_pos h10, h10]
      exact popN_empty 10 _ hemp
  · obtain ⟨s1, s2, e1, e2, -, hh2, -⟩ :=
      ring_fifo (initialised s) cs (initialised_ok s) (initialised_empty s) (by omega)
    exact ⟨_, s1, s2, init_vars_eq s hs, e1, by rw [if_neg h10, e2], getKeyFromBuf_empty s2 hh2⟩

theorem C1_fifo_capacity_nine_witness :
    powerOn.g_ucaKeyBuf.length = KEYBUFLEN ∧ ([65, 66, 67] : List Nat).length ≤ 10 ∧
    ∃ s0 s1 s2, init_vars powerOn = some s0 ∧ pushAll [65, 66, 67] s0 = some s1 ∧
      popN ([65, 66, 67] : List Nat).length s1 =
        some (if ([65, 66, 67] : List Nat).length = 10 then List.replicate 10 0
          else [65, 66, 67], s2) ∧
      getKeyFromBuf s2 = some (0, s2) :=
  ⟨by decide, by decide, C1_fifo_capacity_nine powerOn [65, 66, 67] (by decide) (by decide)⟩

/-- C1 (as stated) fails for K = 10: the ten distinct non-zero characters 1..10 pushed
onto the buffer set up by init_vars are not returned; all ten pops return 0. -/
theorem C1_counterexample :
    (((init_vars powerOn).bind (pushAll [1, 2, 3, 4, 5, 6, 7, 8, 9, 10])).bind (popN 10)).map
        Prod.fst = some [0, 0, 0, 0, 0, 0, 0, 0, 0, 0] ∧
    [0, 0, 0, 0, 0, 0, 0, 0, 0, 0] ≠ [1, 2, 3, 4, 5, 6, 7, 8, 9, 10] := by
  decide

/-- C2 (amended): after eleven pushes onto the buffer set up by init_vars, slot 0 (the slot
that held c1) holds c11, head = 0 and tail = 1; getKeyFromBuf returns c11 and after that
only 0: the characters c1..c10 are lost. -/
theorem C2_overflow_keeps_last (s : KbState) (c1 c2 c3 c4 c5 c6 c7 c8 c9 c10 c11 : Nat)
    (hs : s.g_ucaKeyBuf.length = KEYBUFLEN) :
    ∃ s0 s1 s2, init_vars s = some s0 ∧
      pushAll [c1, c2, c3, c4, c5, c6, c7, c8, c9, c10, c11] s0 = some s1 ∧
      s1.g_ucaKeyBuf[0]? = some c11 ∧
      s1.g_ucKeyBufStartIndex = 0 ∧ s1.g_ucKeyBufEndIndex = 1 ∧
      popN 11 s1 = some (c11 :: List.replicate 10 0, s2) := by
  obtain ⟨s9, e9, ok9, hh9, ht9, -⟩ :=
    pushAll_ring [c1, c2, c3, c4, c5, c6, c7, c8, c9] (initialised s) 0 (initialised_ok s)
      (by simp) rfl
  have hh9 : s9.g_ucKeyBufStartIndex = 0 := hh9
  have ht9 : s9.g_ucKeyBufEndIndex = 9 := ht9
  have hl9 : s9.g_ucaKeyBuf.length = 10 := ok9.1
  have ok10 : BufOk (pushed c10 s9) := by
    simp [BufOk, pushed, nextIndex, KEYBUFLEN, hh9, ht9, hl9]
  have ok11 : BufOk (pushed c11 (pushed c10 s9)) := by
    simp [BufOk, pushed, nextIndex, KEYBUFLEN, hh9, ht9, hl9]
  have hne : (pushed c11 (pushed c10 s9)).g_ucKeyBufStartIndex ≠
      (pushed c11 (pushed c10 s9)).g_ucKeyBufEndIndex := by
    simp [pushed, nextIndex, KEYBUFLEN, hh9, ht9]
  have hpush : pushAll [c1, c2, c3, c4, c5, c6, c7, c8, c9, c10, c11] (initialised s) =
      some (pushed c11 (pushed c10 s9)) := by
    have : [c1, c2, c3, c4, c5, c6, c7, c8, c9, c10, c11] =
        [c1, c2, c3, c4, c5, c6, c7, c8, c9] ++ [c10, c11] := rfl
    rw [this, pushAll_append, e9]
    simp [pushAll, add2KeyBuf_ok c10 s9 ok9, add2KeyBuf_ok c11 _ ok10]
  have hslot : (pushed c11 (pushed c10 s9)).g_ucaKeyBuf[0]? = some c11 := by
    simp [pushed, nextIndex, KEYBUFLEN, hh9, ht9, hl9]
  have hpop : getKeyFromBuf (pushed c11 (pushed c10 s9)) =
      some (c11, popped (pushed c11 (pushed c10 s9))) := by
    rw [getKeyFromBuf_ok _ ok11 hne]
    simp [pushed, nextIndex, KEYBUFLEN, hh9, ht9, hl9]
  have hemp : (popped (pushed c11 (pushed c10 s9))).g_ucKeyBufStartIndex =
      (popped (pushed c11 (pushed c10 s9))).g_ucKeyBufEndIndex := by
    simp [popped, pushed, nextIndex, KEYBUFLEN, hh9, ht9]
  refine ⟨_, _, popped (pushed c11 (pushed c10 s9)), init_vars_eq s hs, hpush, hslot, ?_, ?_, ?_⟩
  · simp [pushed, hh9]
  · simp [pushed, nextIndex, KEYBUFLEN, ht9]
  · have h10 := popN_empty 10 _ hemp
    show (getKeyFromBuf _).bind _ = _
    rw [hpop]
    simp only [Option.some_bind, h10]

theorem C2_overflow_keeps_last_witness :
    powerOn.g_ucaKeyBuf.length = KEYBUFLEN ∧
    ∃ s0 s1 s2, init_vars powerOn = some s0 ∧
      pushAll [1, 2, 3, 4, 5, 6, 7, 8, 9, 10, 11] s0 = some s1 ∧
      s1.g_ucaKeyBuf[0]? = some 11 ∧
      s1.g_ucKeyBufStartIndex = 0 ∧ s1.g_ucKeyBufEndIndex = 1 ∧
      popN 11 s1 = some (11 :: List.replicate 10 0, s2) :=
  ⟨by decide, C2_overflow_keeps_last powerOn 1 2 3 4 5 6 7 8 9 10 11 (by decide)⟩

/-- C2 (as stated) fails: after pushing 1..11 onto the buffer set up by init_vars the pops
return 11 and then 0, not 2, 3, ..., 11. -/
theorem C2_counterexample :
    (((init_vars powerOn).bind (pushAll [1, 2, 3, 4, 5, 6, 7, 8, 9, 10, 11])).bind
        (popN 11)).map Prod.fst = some [11, 0, 0, 0, 0, 0, 0, 0, 0, 0, 0] ∧
    [11, 0, 0, 0, 0, 0, 0, 0, 0, 0, 0] ≠ [2, 3, 4, 5, 6, 7, 8, 9, 10, 11, 0] := by
  decide

/-! ## Serial transmitter -/

set_option maxRecDepth 100000 in
theorem msb_after_shifts : ∀ b < 256,
    (b &&& 128 != 0) = b.testBit 7 ∧
    (b <<< 1 % 256 &&& 128 != 0) = b.testBit 6 ∧
    ((b <<< 1 % 256) <<< 1 % 256 &&& 128 != 0) = b.testBit 5 ∧
    (((b <<< 1 % 256) <<< 1 % 256) <<< 1 % 256 &&& 128 != 0) = b.testBit 4 ∧
    ((((b <<< 1 % 256) <<< 1 % 256) <<< 1 % 256) <<< 1 % 256 &&& 128 != 0) = b.testBit 3 ∧
    (((((b <<< 1 % 256) <<< 1 % 256) <<< 1 % 256) <<< 1 % 256) <<< 1 % 256 &&& 128 != 0) =
      b.testBit 2 ∧
    ((((((b <<< 1 % 256) <<< 1 % 256) <<< 1 % 256) <<< 1 % 256) <<< 1 % 256) <<< 1 % 256 &&&
      128 != 0) = b.testBit 1 ∧
    (((((((b <<< 1 % 256) <<< 1 % 256) <<< 1 % 256) <<< 1 % 256) <<< 1 % 256) <<< 1 % 256)
      <<< 1 % 256 &&& 128 != 0) = b.testBit 0 := by
  decide

theorem pin_HIGH : Level.HIGH.pin = 0 := rfl

theorem pin_LOW : Level.LOW.pin = 1 := rfl

theorem pin_ofBit (v : Bool) : (Level.ofBit v).pin = if v then 0 else 1 := by
  cases v <;> rfl

/-- The effect of `KbSerial_SendKey` on a state: the frame is appended to the bus log and
the pins are left at the last data bit and clock LOW. -/
theorem KbSerial_SendKey_eq (b : Nat) (s : KbState) (hb : b < 256) :
    KbSerial_SendKey b s = some { s with
      SDA_OUT := (Level.ofBit (b.testBit 0)).pin, SCL_OUT := Level.LOW.pin,
      bus := s.bus ++ frameEvents b } := by
  obtain ⟨h7, h6, h5, h4, h3, h2, h1, h0⟩ := msb_after_shifts b hb
  simp only [KbSerial_SendKey, KbSerial_WriteByte, KbSerial_WriteByte_loop, KbSerial_WriteBit,
    KbSerial_Start, set_SDA_OUT, set_SCL_OUT, delms, SIG_DEL, BUS_HIGH, BUS_LOW,
    List.append_assoc, List.singleton_append, List.cons_append, List.nil_append, if_true,
    gt_iff_lt, Nat.reduceLT, Nat.reduceAdd, Nat.reduceMod, ↓reduceIte,
    h7, h6, h5, h4, h3, h2, h1, h0, frameEvents, bitsMSB, pin_ofBit, pin_HIGH, pin_LOW, List.map_cons,
    List.map_nil, List.flatMap_cons, List.flatMap_nil, List.append_nil]

/-- C3: for every byte b, KbSerial_SendKey appends to the bus exactly the frame of b (idle
reset, start sequence, eight data bits MSB first, each level held by one delms(4), the data
pin written once per bit) and nothing else; HIGH is written as 0 and LOW as 1; the data
bits of 0x41 are 0,1,0,0,0,0,0,1. -/
theorem C3_serial_framing (b : Nat) (s : KbState) (hb : b < 256) :
    (∃ s1, KbSerial_SendKey b s = some s1 ∧ s1.bus = s.bus ++ frameEvents b ∧
      { s1 with SDA_OUT := s.SDA_OUT, SCL_OUT := s.SCL_OUT, bus := s.bus } = s) ∧
    holds s.SDA_OUT s.SCL_OUT (frameEvents b) =
      (frameLevels b).map (fun h => (h.1.pin, h.2.1.pin, h.2.2)) ∧
    SIG_DEL = 4 ∧ Level.HIGH.pin = 0 ∧ Level.LOW.pin = 1 ∧
    bitsMSB 0x41 = [false, true, false, false, false, false, false, true] := by
  refine ⟨⟨_, KbSerial_SendKey_eq b s hb, rfl, rfl⟩, ?_, rfl, rfl, rfl, by decide⟩
  simp only [frameEvents, frameLevels, bitsMSB, List.map_cons, List.map_nil, List.flatMap_cons,
    List.flatMap_nil, List.append_assoc, List.singleton_append, List.cons_append,
    List.nil_append, List.append_nil, holds]

theorem C3_serial_framing_witness :
    (0x41 < 256) ∧
    ((∃ s1, KbSerial_SendKey 0x41 powerOn = some s1 ∧
        s1.bus = powerOn.bus ++ frameEvents 0x41 ∧
        { s1 with SDA_OUT := powerOn.SDA_OUT, SCL_OUT := powerOn.SCL_OUT, bus := powerOn.bus }
          = powerOn) ∧
      holds powerOn.SDA_OUT powerOn.SCL_OUT (frameEvents 0x41) =
        (frameLevels 0x41).map (fun h => (h.1.pin, h.2.1.pin, h.2.2)) ∧
      SIG_DEL = 4 ∧ Level.HIGH.pin = 0 ∧ Level.LOW.pin = 1 ∧
      bitsMSB 0x41 = [false, true, false, false, false, false, false, true]) :=
  ⟨by decide, C3_serial_framing 0x41 powerOn (by decide)⟩

/-! ## Scan code to character -/

theorem convKeyCode2Char_above (sh c f : Bool) (kc : Nat) (h : 48 < kc) :
    convKeyCode2Char sh c f kc = 0 := by
  unfold convKeyCode2Char
  split <;> omega

theorem hasCtrlMapping_above (kc : Nat) (h : 48 < kc) : hasCtrlMapping kc = false := by
  simp [hasCtrlMapping, convKeyCode2Char_above _ _ _ kc h]

theorem hasFuncMapping_above (kc : Nat) (h : 48 < kc) : hasFuncMapping kc = false := by
  simp [hasFuncMapping, convKeyCode2Char_above _ _ _ kc h]

set_option maxRecDepth 100000 in
theorem ctrl_precedence_upto_48 : ∀ kc, kc ≤ 48 → ∀ sh sh1 fn fn1 : Bool,
    hasCtrlMapping kc = true →
      convKeyCode2Char sh true fn kc = convKeyCode2Char sh1 true fn1 kc := by
  decide

set_option maxRecDepth 100000 in
theorem func_precedence_upto_48 : ∀ kc, kc ≤ 48 → ∀ sh sh1 c : Bool,
    hasFuncMapping kc = true →
      convKeyCode2Char sh c true kc = convKeyCode2Char sh1 c true kc := by
  decide

set_option maxRecDepth 100000 in
theorem both_mappings_upto_48 : ∀ kc, kc ≤ 48 →
    ((hasCtrlMapping kc = true ∧ hasFuncMapping kc = true) ↔ (kc = 24 ∨ kc = 35 ∨ kc = 37)) := by
  decide

/-- C4: control takes precedence over function and function over shift, for every scan
code and all flags: with control on, a code that has a control mapping resolves to the
same value whatever shift and function are; with function on, a code that has a function
mapping resolves to the same value whatever shift is; 24, 35 and 37 are the only codes
with both mappings and resolve to 19 / 129 / S,s, to 26 / backslash / Z,z and to
3 / backquote / C,c. -/
theorem C4_modifier_precedence (kc : Nat) (sh sh1 fn fn1 c : Bool) :
    (hasCtrlMapping kc = true →
      convKeyCode2Char sh true fn kc = convKeyCode2Char sh1 true fn1 kc) ∧
    (hasFuncMapping kc = true →
      convKeyCode2Char sh c true kc = convKeyCode2Char sh1 c true kc) ∧
    ((hasCtrlMapping kc = true ∧ hasFuncMapping kc = true) ↔ (kc = 24 ∨ kc = 35 ∨ kc = 37)) ∧
    (convKeyCode2Char sh true fn 24 = 19 ∧ convKeyCode2Char sh false true 24 = 129 ∧
      convKeyCode2Char true false false 24 = ascii 'S' ∧
      convKeyCode2Char false false false 24 = ascii 's') ∧
    (convKeyCode2Char sh true fn 35 = 26 ∧ convKeyCode2Char sh false true 35 = 92 ∧
      convKeyCode2Char true false false 35 = ascii 'Z' ∧
      convKeyCode2Char false false false 35 = ascii 'z') ∧
    (convKeyCode2Char sh true fn 37 = 3 ∧ convKeyCode2Char sh false true 37 = 96 ∧
      convKeyCode2Char true false false 37 = ascii 'C' ∧
      convKeyCode2Char false false false 37 = ascii 'c') := by
  have hspec : ∀ sh fn : Bool,
      (convKeyCode2Char sh true fn 24 = 19 ∧ convKeyCode2Char sh false true 24 = 129 ∧
        convKeyCode2Char true false false 24 = ascii 'S' ∧
        convKeyCode2Char false false false 24 = ascii 's') ∧
      (convKeyCode2Char sh true fn 35 = 26 ∧ convKeyCode2Char sh false true 35 = 92 ∧
        convKeyCode2Char true false false 35 = ascii 'Z' ∧
        convKeyCode2Char false false false 35 = ascii 'z') ∧
      (convKeyCode2Char sh true fn 37 = 3 ∧ convKeyCode2Char sh false true 37 = 96 ∧
        convKeyCode2Char true false false 37 = ascii 'C' ∧
        convKeyCode2Char false false false 37 = ascii 'c') := by decide
  obtain ⟨h24, h35, h37⟩ := hspec sh fn
  by_cases hk : kc ≤ 48
  · exact ⟨ctrl_precedence_upto_48 kc hk sh sh1 fn fn1, func_precedence_upto_48 kc hk sh sh1 c,
      both_mappings_upto_48 kc hk, h24, h35, h37⟩
  · have hk : 48 < kc := by omega
    refine ⟨?_, ?_, ?_, h24, h35, h37⟩
    · intro _; simp [convKeyCode2Char_above _ _ _ kc hk]
    · intro _; simp [convKeyCode2Char_above _ _ _ kc hk]
    · constructor
      · intro h; simp [hasCtrlMapping_above kc hk] at h
      · intro h; omega

theorem C4_modifier_precedence_witness :
    hasCtrlMapping 24 = true ∧ hasFuncMapping 24 = true ∧
    convKeyCode2Char false true true 24 = convKeyCode2Char true true false 24 ∧
    convKeyCode2Char false false true 24 = convKeyCode2Char true false true 24 :=
  ⟨by decide, by decide,
    (C4_modifier_precedence 24 false true true false false).1 (by decide),
    (C4_modifier_precedence 24 false true true false false).2.1 (by decide)⟩

/-- C5: with control and function off, every non-modifier scan code of the key matrix
resolves to the unshifted character of the documented table when shift is off and to the
shifted character when shift is on; the table lists exactly the non-modifier codes of the
matrix. -/
theorem C5_shift_table :
    documentedTable.map (fun e =>
        (convKeyCode2Char false false false e.1, convKeyCode2Char true false false e.1)) =
      documentedTable.map (fun e => (ascii e.2.1, ascii e.2.2)) ∧
    List.Perm printableMatrixCodes (documentedTable.map (fun e => e.1)) := by
  decide

/-- C6: convKeyCode2Char returns 0, for every combination of the flags, exactly for the
codes 0, 34, 44, 45, 46, 48 and every code above 48. -/
theorem C6_unmapped_codes (kc : Nat) (sh c f : Bool) :
    convKeyCode2Char sh c f kc = 0 ↔
      (kc = 0 ∨ kc = 34 ∨ kc = 44 ∨ kc = 45 ∨ kc = 46 ∨ kc = 48 ∨ 48 < kc) := by
  have small : ∀ kc, kc ≤ 48 → ∀ sh c f : Bool,
      (convKeyCode2Char sh c f kc = 0 ↔
        (kc = 0 ∨ kc = 34 ∨ kc = 44 ∨ kc = 45 ∨ kc = 46 ∨ kc = 48 ∨ 48 < kc)) := by
    decide
  by_cases hk : kc ≤ 48
  · exact small kc hk sh c f
  · have hk : 48 < kc := by omega
    simp [convKeyCode2Char_above sh c f kc hk, hk]

/-! ## Matrix scanner: the loops as folds -/

theorem matrixAt_eq : ∀ r, r < 8 → ∀ c, c < 8 → matrixAt r c = some (codeAt r c) := by decide

set_option maxRecDepth 1000000 in
theorem mask_test : ∀ c, c < 8 → ∀ ks, ks < 256 →
    (decide ((255 - ks) &&& (2 ^ c % 256) ≠ 0)) = !ks.testBit c := by decide

theorem mask_shift : ∀ c, c < 8 →
    2 ^ c % 256 ≠ 0 ∧ (2 ^ c % 256) <<< 1 % 256 = 2 ^ (c + 1) % 256 ∧ (c + 1) % 256 = c + 1 ∧
      2 ^ c % 256 = 2 ^ c := by
  decide

theorem keyscanOf_lt (kb : Nat → Nat) (r : Nat) : keyscanOf kb r < 256 := Nat.mod_lt _ (by decide)

theorem ScanKb_cols_eq (kb : Nat → Nat) (r : Nat) (hr : r < 8) :
    ∀ (n col fuel : Nat) (rs : Nat × KbState), col + n = 8 → n < fuel →
    ScanKb_cols (keyscanOf kb r) r fuel (2 ^ col % 256) col rs =
      some ((List.range' col n).foldl (fun rs c => keyStep kb rs (r, c)) rs) := by
  intro n
  induction n with
  | zero =>
    intro col fuel rs hc hf
    obtain ⟨f, rfl⟩ : ∃ f, fuel = f + 1 := ⟨fuel - 1, by omega⟩
    have : col = 8 := by omega
    subst this
    simp [ScanKb_cols]
  | succ n ih =>
    intro col fuel rs hc hf
    obtain ⟨f, rfl⟩ : ∃ f, fuel = f + 1 := ⟨fuel - 1, by omega⟩
    have hcol : col < 8 := by omega
    obtain ⟨h1, h2, h3, -⟩ := mask_shift col hcol
    have hm := mask_test col hcol (keyscanOf kb r) (keyscanOf_lt kb r)
    rw [ScanKb_cols, if_pos h1, matrixAt_eq r hr col hcol, h2, h3]
    simp only [Option.some_bind, List.range'_succ, List.foldl_cons]
    rw [← ih (col + 1) f _ (by omega) (by omega)]
    by_cases hp : (255 - keyscanOf kb r) &&& (2 ^ col % 256) ≠ 0
    · have : pressedAt kb r col = true := by rw [pressedAt, ← hm]; simpa using hp
      simp [hp, keyStep, this]
    · have : pressedAt kb r col = false := by rw [pressedAt, ← hm]; simpa using hp
      simp [hp, keyStep, this]

theorem rowStep_idle (kb : Nat → Nat) (r : Nat) (rs : Nat × KbState)
    (h : keyscanOf kb r = 255) : rowStep kb rs r = setScanPorts rs := by
  have hb : ∀ c, c < 8 → Nat.testBit 255 c = true := by decide
  simp [rowStep, rowPositions, List.range', keyStep, pressedAt, h, hb]

theorem ScanKb_rows_eq (kb : Nat → Nat) :
    ∀ (n row fuel : Nat) (rs : Nat × KbState), row + n = 8 → n < fuel →
    ScanKb_rows kb fuel (2 ^ row % 256) row rs =
      some ((List.range' row n).foldl (rowStep kb) rs) := by
  intro n
  induction n with
  | zero =>
    intro row fuel rs hc hf
    obtain ⟨f, rfl⟩ : ∃ f, fuel = f + 1 := ⟨fuel - 1, by omega⟩
    have : row = 8 := by omega
    subst this
    simp [ScanKb_rows]
  | succ n ih =>
    intro row fuel rs hc hf
    obtain ⟨f, rfl⟩ : ∃ f, fuel = f + 1 := ⟨fuel - 1, by omega⟩
    have hrow : row < 8 := by omega
    obtain ⟨h1, h2, h3, h4⟩ := mask_shift row hrow
    rw [ScanKb_rows, if_pos h1, h2, h3]
    simp only [List.range'_succ, List.foldl_cons]
    rw [← ih (row + 1) f _ (by omega) (by omega)]
    have hks : kb (255 - 2 ^ row % 256) % 256 = keyscanOf kb row := by rw [h4]; rfl
    simp only [hks]
    by_cases hp : keyscanOf kb row = 255
    · simp [hp, rowStep_idle kb row rs hp, setScanPorts]
    · have hc := ScanKb_cols_eq kb row hrow 8 0 256 (rs.1, { rs.2 with KBP2 := 255, KBP1 := 255 })
        rfl (by decide)
      simp only [Nat.pow_zero, Nat.one_mod] at hc
      simp only [ne_eq, hp, not_false_eq_true, if_true, hc, Option.some_bind]
      rw [rowStep, rowPositions, List.foldl_map]
      rfl

theorem ScanKb_switch_cases (r c k : Nat) (rs : Nat × KbState) :
    (k = 0 ∧ ScanKb_switch r c k rs = rs) ∨
    (k = 44 ∧ ScanKb_switch r c k rs = (rs.1, { rs.2 with g_bShiftOn := true })) ∨
    (k = 45 ∧ ScanKb_switch r c k rs = (rs.1, { rs.2 with g_bShiftOn := true, g_bLock := true })) ∨
    (k = 46 ∧ ScanKb_switch r c k rs = (rs.1, { rs.2 with g_bCtrl := true })) ∨
    (k = 48 ∧ ScanKb_switch r c k rs = (rs.1, { rs.2 with g_bFunc := true })) ∨
    (isPrintableCode k = true ∧ ScanKb_switch r c k rs =
      ((r + 1) % 256,
        { rs.2 with g_ucRow := r, g_ucColumn := c, g_ucKeyCode := k, g_bKeyHit := true })) := by
  unfold ScanKb_switch
  split
  · exact Or.inl ⟨rfl, rfl⟩
  · exact Or.inr (Or.inl ⟨rfl, rfl⟩)
  · exact Or.inr (Or.inr (Or.inl ⟨rfl, rfl⟩))
  · exact Or.inr (Or.inr (Or.inr (Or.inl ⟨rfl, rfl⟩)))
  · exact Or.inr (Or.inr (Or.inr (Or.inr (Or.inl ⟨rfl, rfl⟩))))
  · refine Or.inr (Or.inr (Or.inr (Or.inr (Or.inr ⟨?_, rfl⟩))))
    simp only [isPrintableCode, isModifierCode, Bool.and_eq_true, bne_iff_ne, ne_eq,
      Bool.not_eq_true', Bool.or_eq_false_iff, beq_eq_false_iff_ne]
    rename_i h0 h44 h45 h46 h48
    exact ⟨h0, ⟨⟨h44, h45⟩, h46⟩, h48⟩

theorem scanned_nil (kb : Nat → Nat) (rs : Nat × KbState) : scanned kb [] rs = rs := by
  simp [scanned, codePressedIn, pressedPrintableIn]

theorem scanned_cons (kb : Nat → Nat) (p : Nat × Nat) (l : List (Nat × Nat))
    (rs : Nat × KbState) : scanned kb l (keyStep kb rs p) = scanned kb (p :: l) rs := by
  unfold keyStep
  by_cases hp : pressedAt kb p.1 p.2 = true
  · rw [if_pos hp]
    rcases ScanKb_switch_cases p.1 p.2 (codeAt p.1 p.2) rs with
      ⟨hk, e⟩ | ⟨hk, e⟩ | ⟨hk, e⟩ | ⟨hk, e⟩ | ⟨hk, e⟩ | ⟨hk, e⟩
    · rw [e]
      simp [scanned, codePressedIn, pressedPrintableIn, List.filter_cons, hp, hk,
        isPrintableCode, isModifierCode]
    · rw [e]
      simp [scanned, codePressedIn, pressedPrintableIn, List.filter_cons, hp, hk,
        isPrintableCode, isModifierCode]
    · rw [e]
      simp [scanned, codePressedIn, pressedPrintableIn, List.filter_cons, hp, hk,
        isPrintableCode, isModifierCode]
    · rw [e]
      simp [scanned, codePressedIn, pressedPrintableIn, List.filter_cons, hp, hk,
        isPrintableCode, isModifierCode]
    · rw [e]
      simp [scanned, codePressedIn, pressedPrintableIn, List.filter_cons, hp, hk,
        isPrintableCode, isModifierCode]
    · rw [e]
      have h44 : (codeAt p.1 p.2 == 44) = false := by
        simp [isPrintableCode, isModifierCode] at hk; simp [hk]
      have h45 : (codeAt p.1 p.2 == 45) = false := by
        simp [isPrintableCode, isModifierCode] at hk; simp [hk]
      have h46 : (codeAt p.1 p.2 == 46) = false := by
        simp [isPrintableCode, isModifierCode] at hk; simp [hk]
      have h48 : (codeAt p.1 p.2 == 48) = false := by
        simp [isPrintableCode, isModifierCode] at hk; simp [hk]
      cases hl : (pressedPrintableIn kb l).getLast? with
      | none =>
        have hl2 : (List.filter (fun p => pressedAt kb p.1 p.2 && isPrintableCode (codeAt p.1 p.2)) l).getLast? = none := hl
        simp [scanned, codePressedIn, pressedPrintableIn, List.filter_cons, hp, hk, h44, h45,
          h46, h48, List.getLast?_cons, hl2]
      | some q =>
        have hl2 : (List.filter (fun p => pressedAt kb p.1 p.2 && isPrintableCode (codeAt p.1 p.2)) l).getLast? = some q := hl
        simp [scanned, codePressedIn, pressedPrintableIn, List.filter_cons, hp, hk, h44, h45,
          h46, h48, List.getLast?_cons, hl2]
  · have hp : pressedAt kb p.1 p.2 = false := by simpa using hp
    simp [scanned, codePressedIn, pressedPrintableIn, List.filter_cons, hp]

theorem foldl_keyStep (kb : Nat → Nat) (l : List (Nat × Nat)) :
    ∀ rs : Nat × KbState, l.foldl (keyStep kb) rs = scanned kb l rs := by
  induction l with
  | nil => intro rs; exact (scanned_nil kb rs).symm
  | cons p l ih => intro rs; rw [List.foldl_cons, ih, scanned_cons]

theorem scanOrder_eq : scanOrder = (List.range' 0 8).flatMap rowPositions := by decide

theorem keyStep_setScanPorts (kb : Nat → Nat) (rs : Nat × KbState) (p : Nat × Nat) :
    keyStep kb (setScanPorts rs) p = setScanPorts (keyStep kb rs p) := by
  unfold keyStep
  split
  · rcases ScanKb_switch_cases p.1 p.2 (codeAt p.1 p.2) rs with
      ⟨_, e⟩ | ⟨_, e⟩ | ⟨_, e⟩ | ⟨_, e⟩ | ⟨_, e⟩ | ⟨_, e⟩ <;>
    rcases ScanKb_switch_cases p.1 p.2 (codeAt p.1 p.2) (setScanPorts rs) with
      ⟨_, e1⟩ | ⟨_, e1⟩ | ⟨_, e1⟩ | ⟨_, e1⟩ | ⟨_, e1⟩ | ⟨_, e1⟩ <;>
    first
      | (rw [e, e1]; done)
      | (rw [e, e1]; rfl)
      | (exfalso; simp_all [isPrintableCode, isModifierCode])
  · rfl

theorem foldl_keyStep_setScanPorts (kb : Nat → Nat) (l : List (Nat × Nat)) :
    ∀ rs : Nat × KbState,
      l.foldl (keyStep kb) (setScanPorts rs) = setScanPorts (l.foldl (keyStep kb) rs) := by
  induction l with
  | nil => intro rs; rfl
  | cons p l ih => intro rs; rw [List.foldl_cons, List.foldl_cons, keyStep_setScanPorts, ih]

theorem foldl_rowStep (kb : Nat → Nat) (rows : List Nat) :
    ∀ rs : Nat × KbState,
      rows.foldl (rowStep kb) (setScanPorts rs) =
        setScanPorts ((rows.flatMap rowPositions).foldl (keyStep kb) rs) := by
  induction rows with
  | nil => intro rs; rfl
  | cons r rows ih =>
    intro rs
    rw [List.foldl_cons, List.flatMap_cons, List.foldl_append]
    have : rowStep kb (setScanPorts rs) r =
        setScanPorts ((rowPositions r).foldl (keyStep kb) rs) := by
      rw [rowStep, foldl_keyStep_setScanPorts, foldl_keyStep_setScanPorts]; rfl
    rw [this, ih]

theorem ScanKb_rows_scanned (kb : Nat → Nat) (rs : Nat × KbState) :
    ScanKb_rows kb 256 1 0 rs = some (setScanPorts (scanned kb scanOrder rs)) := by
  have h := ScanKb_rows_eq kb 8 0 256 rs rfl (by decide)
  simp only [Nat.pow_zero, Nat.one_mod] at h
  rw [h, scanOrder_eq, ← foldl_keyStep]
  have : List.range' 0 8 = 0 :: List.range' 1 7 := rfl
  rw [this, List.foldl_cons, List.flatMap_cons, List.foldl_append]
  have h0 : rowStep kb rs 0 = setScanPorts ((rowPositions 0).foldl (keyStep kb) rs) := by
    rw [rowStep, foldl_keyStep_setScanPorts]
  rw [h0, foldl_rowStep]

theorem scanOrder_bounds : ∀ p ∈ scanOrder, p.1 < 8 ∧ p.2 < 8 := by decide

theorem mem_pressedPrintable (kb : Nat → Nat) (p : Nat × Nat) :
    p ∈ pressedPrintable kb ↔
      p ∈ scanOrder ∧ pressedAt kb p.1 p.2 = true ∧ isPrintableCode (codeAt p.1 p.2) = true := by
  simp [pressedPrintable, pressedPrintableIn, List.mem_filter]

theorem isPrintableCode_ne_zero (k : Nat) (h : isPrintableCode k = true) : k ≠ 0 := by
  intro h0; subst h0; simp [isPrintableCode] at h

/-- With no key hit pending, `ScanKb` returns `scanResult`. -/
theorem ScanKb_idle_eq (kb : Nat → Nat) (s : KbState) (h : s.g_bKeyHit = false) :
    ScanKb kb s = some (scanResult kb s) := by
  unfold ScanKb
  rw [if_neg (by simp [h])]
  simp only [ScanKb_rows_scanned, Option.some_bind]
  unfold scanResult scanned
  cases hl : (pressedPrintable kb).getLast? with
  | none =>
    have hl2 : (pressedPrintableIn kb scanOrder).getLast? = none := hl
    simp [hl2, setScanPorts, ResetSpecKeysFlags, h, codePressed]
  | some p =>
    have hl2 : (pressedPrintableIn kb scanOrder).getLast? = some p := hl
    have hm := (mem_pressedPrintable kb p).1 (List.mem_of_getLast?_eq_some hl)
    have hb := scanOrder_bounds p hm.1
    have hne := isPrintableCode_ne_zero _ hm.2.2
    have hr : (p.1 + 1) % 256 = p.1 + 1 := by omega
    simp [hl2, setScanPorts, ResetSpecKeysFlags, codePressed, hne, hr]

theorem scanOrder_pairwise : scanOrder.Pairwise scannedBefore := by decide

theorem getLast?_pairwise {l : List (Nat × Nat)} {p : Nat × Nat}
    (h : l.Pairwise scannedBefore) (hl : l.getLast? = some p) :
    ∀ q ∈ l, q = p ∨ scannedBefore q p := by
  obtain ⟨ys, rfl⟩ := List.getLast?_eq_some_iff.1 hl
  intro q hq
  rw [List.pairwise_append] at h
  rcases List.mem_append.1 hq with hq | hq
  · exact Or.inr (h.2.2 q hq p (by simp))
  · exact Or.inl (by simpa using hq)

/-- C7: while a key hit is pending ScanKb returns 0 and changes nothing, whatever the
keyboard reports, and so does any sequence of calls. -/
theorem C7_scan_noop_while_pending (kb : Nat → Nat) (kbs : List (Nat → Nat)) (s : KbState)
    (h : s.g_bKeyHit = true) :
    ScanKb kb s = some (0, s) ∧
    ScanKb_repeat kbs s = some (List.replicate kbs.length 0, s) := by
  have one : ∀ kb : Nat → Nat, ScanKb kb s = some (0, s) := by
    intro kb; simp [ScanKb, h]
  refine ⟨one kb, ?_⟩
  induction kbs with
  | nil => rfl
  | cons k kbs ih => simp [ScanKb_repeat, one k, ih, List.replicate_succ]

theorem C7_scan_noop_while_pending_witness :
    pendingState.g_bKeyHit = true ∧
    ScanKb kbScanCode24 pendingState = some (0, pendingState) ∧
    ScanKb_repeat [kbScanCode24, kbScanCode1, kbScanCode24] pendingState =
      some (List.replicate [kbScanCode24, kbScanCode1, kbScanCode24].length 0, pendingState) :=
  ⟨rfl, C7_scan_noop_while_pending kbScanCode24 [kbScanCode24, kbScanCode1, kbScanCode24]
    pendingState rfl⟩

/-- C8: with no key hit pending, let P = pressedPrintable kb be the positions reported
pressed whose matrix code is neither 0 nor a modifier code, in scan order.  If P has a last
element p, ScanKb returns p.row + 1 (in 1..8), sets g_bKeyHit and latches p and its matrix
code; p is the position of P with the greatest row and, in that row, the greatest column
bit.  If P is empty, ScanKb returns 0, g_bKeyHit stays false, g_ucKeyCode and g_cKey are 0. -/
theorem C8_idle_scan_result (kb : Nat → Nat) (s : KbState) (h : s.g_bKeyHit = false) :
    (∀ q : Nat × Nat, q ∈ pressedPrintable kb ↔
      (q.1 < 8 ∧ q.2 < 8 ∧ (keyscanOf kb q.1).testBit q.2 = false ∧
        ∃ k, matrixAt q.1 q.2 = some k ∧ k ≠ 0 ∧ k ≠ 44 ∧ k ≠ 45 ∧ k ≠ 46 ∧ k ≠ 48)) ∧
    (∀ p, (pressedPrintable kb).getLast? = some p →
      (∀ q ∈ pressedPrintable kb, q.1 < p.1 ∨ (q.1 = p.1 ∧ q.2 ≤ p.2)) ∧
      ∃ s1, ScanKb kb s = some (s1.g_ucRow + 1, s1) ∧ s1.g_bKeyHit = true ∧
        (s1.g_ucRow, s1.g_ucColumn) = p ∧
        matrixAt s1.g_ucRow s1.g_ucColumn = some s1.g_ucKeyCode ∧
        1 ≤ s1.g_ucRow + 1 ∧ s1.g_ucRow + 1 ≤ 8) ∧
    (pressedPrintable kb = [] →
      ∃ s1, ScanKb kb s = some (0, s1) ∧ s1.g_bKeyHit = false ∧ s1.g_ucKeyCode = 0 ∧
        s1.g_cKey = 0) := by
  refine ⟨?_, ?_, ?_⟩
  · intro q
    rw [mem_pressedPrintable]
    constructor
    · rintro ⟨hq, hp, hk⟩
      obtain ⟨h1, h2⟩ := scanOrder_bounds q hq
      refine ⟨h1, h2, by simpa [pressedAt] using hp, codeAt q.1 q.2, matrixAt_eq _ h1 _ h2, ?_⟩
      simpa [isPrintableCode, isModifierCode, and_assoc] using hk
    · rintro ⟨h1, h2, hp, k, hk, hk0⟩
      have hc : codeAt q.1 q.2 = k := by simp [codeAt, hk]
      refine ⟨?_, by simpa [pressedAt] using hp, ?_⟩
      · have : ∀ a, a < 8 → ∀ b, b < 8 → (a, b) ∈ scanOrder := by decide
        exact this q.1 h1 q.2 h2
      · rw [hc]; simpa [isPrintableCode, isModifierCode, and_assoc] using hk0
  · intro p hp
    have hm := (mem_pressedPrintable kb p).1 (List.mem_of_getLast?_eq_some hp)
    obtain ⟨h1, h2⟩ := scanOrder_bounds p hm.1
    constructor
    · intro q hq
      have hpw : (pressedPrintable kb).Pairwise scannedBefore :=
        List.Pairwise.filter _ scanOrder_pairwise
      rcases getLast?_pairwise hpw hp q hq with rfl | hlt
      · exact Or.inr ⟨rfl, Nat.le_refl _⟩
      · rcases hlt with hlt | ⟨he, hlt⟩
        · exact Or.inl hlt
        · exact Or.inr ⟨he, Nat.le_of_lt hlt⟩
    · refine ⟨(scanResult kb s).2, ?_, ?_, ?_, ?_, ?_, ?_⟩
      · rw [ScanKb_idle_eq kb s h]; simp [scanResult, hp]
      · simp [scanResult, hp]
      · simp [scanResult, hp]
      · simp [scanResult, hp, matrixAt_eq _ h1 _ h2]
      · omega
      · simp [scanResult, hp]; omega
  · intro hP
    refine ⟨(scanResult kb s).2, ?_, ?_, ?_, ?_⟩
    · rw [ScanKb_idle_eq kb s h]; simp [scanResult, hP]
    · simp [scanResult, hP, h]
    · simp [scanResult, hP]
    · simp [scanResult, hP]

theorem C8_idle_scan_result_witness :
    powerOn.g_bKeyHit = false ∧ (pressedPrintable kbScanCode1).getLast? = some (4, 5) ∧
    ∃ s1, ScanKb kbScanCode1 powerOn = some (s1.g_ucRow + 1, s1) ∧ s1.g_bKeyHit = true ∧
      (s1.g_ucRow, s1.g_ucColumn) = (4, 5) ∧
      matrixAt s1.g_ucRow s1.g_ucColumn = some s1.g_ucKeyCode ∧
      1 ≤ s1.g_ucRow + 1 ∧ s1.g_ucRow + 1 ≤ 8 :=
  ⟨rfl, by decide, ((C8_idle_scan_result kbScanCode1 powerOn rfl).2.1 (4, 5) (by decide)).2⟩

/-- `add2KeyBuf` changes nothing but the buffer array and the tail index. -/
theorem add2KeyBuf_frame (kc : Nat) (s s1 : KbState) (h : add2KeyBuf kc s = some s1) :
    s1 = { s with g_ucaKeyBuf := s1.g_ucaKeyBuf, g_ucKeyBufEndIndex := s1.g_ucKeyBufEndIndex } := by
  unfold add2KeyBuf store at h
  split at h
  · simp only [Option.some_bind] at h
    split at h <;> split at h <;>
    first
      | (simp only [Option.some_bind, Option.some.injEq] at h; subst h; rfl)
      | (simp at h)
  · simp at h

/-- C9: GetScannedKey with a key hit pending and g_cKey non-zero pushes g_cKey with one
add2KeyBuf and then delays KEYRD_DEL = 115 ms; with g_cKey zero it pushes nothing and does
not delay; in both cases it clears g_bKeyHit.  With no key hit pending it changes nothing.
The latched row, column, scan code and the modifier flags are never changed. -/
theorem C9_key_hit_consumption (s : KbState) :
    (s.g_bKeyHit = true → s.g_cKey ≠ 0 →
      GetScannedKey s = (add2KeyBuf s.g_cKey s).bind
        (fun s1 => some { delms KEYRD_DEL s1 with g_bKeyHit := false }) ∧
      (BufOk s → GetScannedKey s = some { pushed s.g_cKey s with
        g_bKeyHit := false, bus := s.bus ++ [BusEvent.delay 115] })) ∧
    (s.g_bKeyHit = true → s.g_cKey = 0 → GetScannedKey s = some { s with g_bKeyHit := false }) ∧
    (s.g_bKeyHit = false → GetScannedKey s = some s) ∧
    (∀ s1, GetScannedKey s = some s1 →
      s1.g_bKeyHit = false ∧ s1.g_ucRow = s.g_ucRow ∧ s1.g_ucColumn = s.g_ucColumn ∧
      s1.g_ucKeyCode = s.g_ucKeyCode ∧ s1.g_bShiftOn = s.g_bShiftOn ∧ s1.g_bLock = s.g_bLock ∧
      s1.g_bCtrl = s.g_bCtrl ∧ s1.g_bFunc = s.g_bFunc) ∧
    KEYRD_DEL = 115 := by
  have hpush : s.g_bKeyHit = true → s.g_cKey ≠ 0 →
      GetScannedKey s = (add2KeyBuf s.g_cKey s).bind
        (fun s1 => some { delms KEYRD_DEL s1 with g_bKeyHit := false }) := by
    intro hh hk
    simp only [GetScannedKey, hh, if_true, ne_eq, hk, not_false_eq_true]
    cases add2KeyBuf s.g_cKey s <;> rfl
  have hzero : s.g_bKeyHit = true → s.g_cKey = 0 →
      GetScannedKey s = some { s with g_bKeyHit := false } := by
    intro hh hk
    simp [GetScannedKey, hh, hk]
  have hidle : s.g_bKeyHit = false → GetScannedKey s = some s := by
    intro hh
    simp [GetScannedKey, hh]
  refine ⟨fun hh hk => ⟨hpush hh hk, ?_⟩, hzero, hidle, ?_, rfl⟩
  · intro ok
    rw [hpush hh hk, add2KeyBuf_ok _ s ok]
    simp [delms, KEYRD_DEL, pushed]
  · intro s1 h1
    cases hh : s.g_bKeyHit with
    | false =>
      rw [hidle hh] at h1
      simp only [Option.some.injEq] at h1
      subst h1
      simp [hh]
    | true =>
      by_cases hk : s.g_cKey = 0
      · rw [hzero hh hk] at h1
        simp only [Option.some.injEq] at h1
        subst h1
        simp
      · rw [hpush hh hk] at h1
        cases ha : add2KeyBuf s.g_cKey s with
        | none => rw [ha] at h1; simp at h1
        | some s2 =>
          rw [ha] at h1
          simp only [Option.some_bind, Option.some.injEq] at h1
          have hf := add2KeyBuf_frame _ _ _ ha
          subst h1
          rw [hf]
          simp [delms, KEYRD_DEL]

theorem C9_key_hit_consumption_witness :
    pendingState.g_bKeyHit = true ∧ pendingState.g_cKey ≠ 0 ∧ BufOk pendingState ∧
    GetScannedKey pendingState = some { pushed pendingState.g_cKey pendingState with
      g_bKeyHit := false, bus := pendingState.bus ++ [BusEvent.delay 115] } :=
  ⟨rfl, by decide, by simp [BufOk, pendingState, powerOn, KEYBUFLEN],
    ((C9_key_hit_consumption pendingState).1 rfl (by decide)).2
      (by simp [BufOk, pendingState, powerOn, KEYBUFLEN])⟩

/-! ## Main loop -/

theorem conv_printable : ∀ q ∈ scanOrder, isPrintableCode (codeAt q.1 q.2) = true →
    convKeyCode2Char false false false (codeAt q.1 q.2) ≠ 0 ∧
    convKeyCode2Char false false false (codeAt q.1 q.2) < 256 := by
  decide

theorem nextIndex_ne (t : Nat) (h : t < KEYBUFLEN) : nextIndex t ≠ t ∧ nextIndex t < KEYBUFLEN := by
  simp only [nextIndex, KEYBUFLEN] at *
  split <;> omega

theorem GetScannedKey_pending (s : KbState) (ok : BufOk s) (hh : s.g_bKeyHit = true)
    (hk : s.g_cKey ≠ 0) :
    GetScannedKey s = some { pushed s.g_cKey s with
      g_bKeyHit := false, bus := s.bus ++ [BusEvent.delay 115] } := by
  simp [GetScannedKey, hh, hk, add2KeyBuf_ok _ s ok, delms, KEYRD_DEL, pushed]

/-- The drain loop of `main` when exactly one non-zero byte is in the buffer: the byte
is sent and the buffer is empty afterwards. -/
theorem main_drain_one (s : KbState) (ch : Nat) (ok : BufOk s) (hne : ch ≠ 0) (hlt : ch < 256)
    (hbuf : s.g_ucaKeyBuf.getD s.g_ucKeyBufStartIndex 0 = ch)
    (hnext : s.g_ucKeyBufEndIndex = nextIndex s.g_ucKeyBufStartIndex) :
    main_drain 256 s = some { popped s with
      SDA_OUT := (Level.ofBit (ch.testBit 0)).pin, SCL_OUT := Level.LOW.pin,
      bus := s.bus ++ frameEvents ch } := by
  have hd : s.g_ucKeyBufStartIndex ≠ s.g_ucKeyBufEndIndex := by
    rw [hnext]; exact (nextIndex_ne _ ok.2.1).1.symm
  have h1 : main_drain 256 s = (getKeyFromBuf s).bind fun r =>
      if r.1 ≠ 0 then (KbSerial_SendKey r.1 r.2).bind (main_drain 255) else some r.2 := rfl
  have hsend := KbSerial_SendKey_eq ch (popped s) hlt
  have hemp : ({ popped s with
      SDA_OUT := (Level.ofBit (ch.testBit 0)).pin, SCL_OUT := Level.LOW.pin,
      bus := (popped s).bus ++ frameEvents ch } : KbState).g_ucKeyBufStartIndex =
      ({ popped s with
      SDA_OUT := (Level.ofBit (ch.testBit 0)).pin, SCL_OUT := Level.LOW.pin,
      bus := (popped s).bus ++ frameEvents ch } : KbState).g_ucKeyBufEndIndex := by
    simp [popped, hnext]
  have h2 : ∀ s3 : KbState, s3.g_ucKeyBufStartIndex = s3.g_ucKeyBufEndIndex →
      main_drain 255 s3 = some s3 := by
    intro s3 h3
    have : main_drain 255 s3 = (getKeyFromBuf s3).bind fun r =>
      if r.1 ≠ 0 then (KbSerial_SendKey r.1 r.2).bind (main_drain 254) else some r.2 := rfl
    rw [this, getKeyFromBuf_empty s3 h3]
    rfl
  rw [h1, getKeyFromBuf_ok s ok hd, hbuf]
  simp only [Option.some_bind, ne_eq, hne, not_false_eq_true, if_true, hsend, h2 _ hemp]
  rfl

/-- One pass of the main loop from an idle state with an empty buffer, when exactly one
printable key and no modifier key is reported pressed. -/
theorem iteration_one_key (kb : Nat → Nat) (s : KbState) (p : Nat × Nat) (ok : BufOk s)
    (hidle : s.g_bKeyHit = false) (hempty : s.g_ucKeyBufStartIndex = s.g_ucKeyBufEndIndex)
    (hP : pressedPrintable kb = [p])
    (hM : codePressed kb 44 = false ∧ codePressed kb 45 = false ∧ codePressed kb 46 = false ∧
      codePressed kb 48 = false) :
    ∃ s1 s2 s3, ScanKb kb s = some (p.1 + 1, s1) ∧
      s1.g_cKey = convKeyCode2Char false false false (codeAt p.1 p.2) ∧
      GetScannedKey s1 = some s2 ∧
      s2.g_ucaKeyBuf[s.g_ucKeyBufEndIndex]? =
        some (convKeyCode2Char false false false (codeAt p.1 p.2)) ∧
      s2.g_ucKeyBufStartIndex = s.g_ucKeyBufStartIndex ∧
      s2.g_ucKeyBufEndIndex = nextIndex s.g_ucKeyBufEndIndex ∧
      main_drain 256 s2 = some s3 ∧
      s3.bus = s.bus ++ [BusEvent.delay 115] ++
        frameEvents (convKeyCode2Char false false false (codeAt p.1 p.2)) ∧
      s3.g_ucKeyBufStartIndex = s3.g_ucKeyBufEndIndex ∧ s3.g_bKeyHit = false ∧ BufOk s3 ∧
      main_iteration kb s = some s3 := by
  obtain ⟨hl, hh, ht⟩ := ok
  obtain ⟨h44, h45, h46, h48⟩ := hM
  have hlast : (pressedPrintable kb).getLast? = some p := by rw [hP]; rfl
  have hm := (mem_pressedPrintable kb p).1 (List.mem_of_getLast?_eq_some hlast)
  obtain ⟨hne, hlt⟩ := conv_printable p hm.1 hm.2.2
  obtain ⟨hn1, hn2⟩ := nextIndex_ne _ ht
  generalize hch : convKeyCode2Char false false false (codeAt p.1 p.2) = ch at hne hlt ⊢
  have hscan : ScanKb kb s = some (p.1 + 1, { s with
      g_ucKeyCode := codeAt p.1 p.2, g_cKey := ch, g_ucRow := p.1, g_ucColumn := p.2,
      g_bKeyHit := true, g_bShiftOn := false, g_bLock := false, g_bCtrl := false,
      g_bFunc := false, KBP1 := 0xFF, KBP2 := 0xFF }) := by
    rw [ScanKb_idle_eq kb s hidle]
    simp [scanResult, hlast, h44, h45, h46, h48, hch]
  have hget := GetScannedKey_pending { s with
      g_ucKeyCode := codeAt p.1 p.2, g_cKey := ch, g_ucRow := p.1, g_ucColumn := p.2,
      g_bKeyHit := true, g_bShiftOn := false, g_bLock := false, g_bCtrl := false,
      g_bFunc := false, KBP1 := 0xFF, KBP2 := 0xFF } ⟨hl, hh, ht⟩ rfl hne
  simp only [pushed] at hget
  have hdrain := main_drain_one { s with
      g_ucKeyCode := codeAt p.1 p.2, g_cKey := ch, g_ucRow := p.1, g_ucColumn := p.2,
      g_bKeyHit := false, g_bShiftOn := false, g_bLock := false, g_bCtrl := false,
      g_bFunc := false, KBP1 := 0xFF, KBP2 := 0xFF,
      g_ucaKeyBuf := (s.g_ucaKeyBuf.set s.g_ucKeyBufEndIndex ch).set
        (nextIndex s.g_ucKeyBufEndIndex) 0,
      g_ucKeyBufEndIndex := nextIndex s.g_ucKeyBufEndIndex,
      bus := s.bus ++ [BusEvent.delay 115] } ch
    ⟨by simpa using hl, hh, hn2⟩ hne hlt
    (by
      simp only [hempty]
      rw [List.getD_eq_getElem?_getD, List.getElem?_set_ne hn1,
        List.getElem?_set_self (by rw [hl]; exact ht)]
      rfl)
    (by simp only [hempty])
  have hslot : ((s.g_ucaKeyBuf.set s.g_ucKeyBufEndIndex ch).set
      (nextIndex s.g_ucKeyBufEndIndex) 0)[s.g_ucKeyBufEndIndex]? = some ch := by
    rw [List.getElem?_set_ne hn1, List.getElem?_set_self (by rw [hl]; exact ht)]
  refine ⟨_, _, _, hscan, rfl, hget, hslot, rfl, rfl, hdrain, ?_, ?_, rfl, ?_, ?_⟩
  · simp [popped]
  · simp [popped, hempty]
  · refine ⟨by simpa [popped] using hl, ?_, hn2⟩
    simp only [popped, hempty]
    exact hn2
  · simp only [main_iteration, hscan, Option.some_bind, hget, hdrain]

/-- The state in which `main` enters its endless loop: no key hit pending, the buffer
empty with both indexes 0, the sync byte 0 sent. -/
theorem main_init_eq (s : KbState) (hs : s.g_ucaKeyBuf.length = KEYBUFLEN) :
    ∃ s0, main_init s = some s0 ∧ BufOk s0 ∧ s0.g_bKeyHit = false ∧
      s0.g_ucKeyBufStartIndex = 0 ∧ s0.g_ucKeyBufEndIndex = 0 ∧
      s0.g_ucaKeyBuf = List.replicate KEYBUFLEN 0 := by
  have h := KbSerial_SendKey_eq 0 (delms 1000 (init_ports (initialised s))) (by decide)
  have e : main_init s = KbSerial_SendKey 0 (delms 1000 (init_ports (initialised s))) := by
    simp only [main_init, init_vars_eq s hs, Option.some_bind]
  rw [e, h]
  refine ⟨_, rfl, ⟨?_, ?_, ?_⟩, ?_, ?_, ?_, ?_⟩ <;>
    simp [delms, init_ports, set_SDA_OUT, set_SCL_OUT, initialised, KEYBUFLEN]

/-- C10: from the state in which main enters its loop, one pass of the loop with exactly
one printable key and no modifier key reported pressed latches the key, enqueues its
unshifted character, sends exactly one frame carrying it (after the 115 ms delay) and
leaves the buffer empty and no key hit pending.  Scan code 1 sits at row 4, column 5, its
character is 0x31 with data bits 0,0,1,1,0,0,0,1. -/
theorem C10_end_to_end_one_key (kb : Nat → Nat) (s : KbState) (p : Nat × Nat)
    (hs : s.g_ucaKeyBuf.length = KEYBUFLEN) (hP : pressedPrintable kb = [p])
    (hM : codePressed kb 44 = false ∧ codePressed kb 45 = false ∧ codePressed kb 46 = false ∧
      codePressed kb 48 = false) :
    (∃ s0 s1 s2 s3, main_init s = some s0 ∧ s0.g_bKeyHit = false ∧
      s0.g_ucKeyBufStartIndex = s0.g_ucKeyBufEndIndex ∧
      ScanKb kb s0 = some (p.1 + 1, s1) ∧
      s1.g_cKey = convKeyCode2Char false false false (codeAt p.1 p.2) ∧
      GetScannedKey s1 = some s2 ∧
      s2.g_ucaKeyBuf[s0.g_ucKeyBufEndIndex]? =
        some (convKeyCode2Char false false false (codeAt p.1 p.2)) ∧
      s2.g_ucKeyBufStartIndex = s0.g_ucKeyBufStartIndex ∧
      s2.g_ucKeyBufEndIndex = nextIndex s0.g_ucKeyBufEndIndex ∧
      main_drain 256 s2 = some s3 ∧
      main_iteration kb s0 = some s3 ∧
      s3.bus = s0.bus ++ [BusEvent.delay 115] ++
        frameEvents (convKeyCode2Char false false false (codeAt p.1 p.2)) ∧
      s3.g_ucKeyBufStartIndex = s3.g_ucKeyBufEndIndex ∧ s3.g_bKeyHit = false) ∧
    (matrixAt 4 5 = some 1 ∧ convKeyCode2Char false false false 1 = ascii '1' ∧
      ascii '1' = 0x31 ∧
      bitsMSB 0x31 = [false, false, true, true, false, false, false, true]) := by
  refine ⟨?_, by decide⟩
  obtain ⟨s0, e0, ok0, hidle, hh0, ht0, -⟩ := main_init_eq s hs
  obtain ⟨s1, s2, s3, e1, hk, e2, hslot, hh2, ht2, e3, hbus, hemp, hhit, -, hiter⟩ :=
    iteration_one_key kb s0 p ok0 hidle (by rw [hh0, ht0]) hP hM
  exact ⟨s0, s1, s2, s3, e0, hidle, by rw [hh0, ht0], e1, hk, e2, hslot, hh2, ht2, e3, hiter,
    hbus, hemp, hhit⟩

theorem C10_end_to_end_one_key_witness :
    powerOn.g_ucaKeyBuf.length = KEYBUFLEN ∧ pressedPrintable kbScanCode1 = [(4, 5)] ∧
    (codePressed kbScanCode1 44 = false ∧ codePressed kbScanCode1 45 = false ∧
      codePressed kbScanCode1 46 = false ∧ codePressed kbScanCode1 48 = false) ∧
    ∃ s0 s1 s2 s3, main_init powerOn = some s0 ∧ s0.g_bKeyHit = false ∧
      s0.g_ucKeyBufStartIndex = s0.g_ucKeyBufEndIndex ∧
      ScanKb kbScanCode1 s0 = some (4 + 1, s1) ∧
      s1.g_cKey = convKeyCode2Char false false false (codeAt 4 5) ∧
      GetScannedKey s1 = some s2 ∧
      s2.g_ucaKeyBuf[s0.g_ucKeyBufEndIndex]? =
        some (convKeyCode2Char false false false (codeAt 4 5)) ∧
      s2.g_ucKeyBufStartIndex = s0.g_ucKeyBufStartIndex ∧
      s2.g_ucKeyBufEndIndex = nextIndex s0.g_ucKeyBufEndIndex ∧
      main_drain 256 s2 = some s3 ∧
      main_iteration kbScanCode1 s0 = some s3 ∧
      s3.bus = s0.bus ++ [BusEvent.delay 115] ++
        frameEvents (convKeyCode2Char false false false (codeAt 4 5)) ∧
      s3.g_ucKeyBufStartIndex = s3.g_ucKeyBufEndIndex ∧ s3.g_bKeyHit = false :=
  ⟨by decide, by decide, by decide,
    (C10_end_to_end_one_key kbScanCode1 powerOn (4, 5) (by decide) (by decide) (by decide)).1⟩

/-! ## Modifier flags -/

theorem mem_scanOrder (p : Nat × Nat) : p ∈ scanOrder ↔ p.1 < 8 ∧ p.2 < 8 := by
  constructor
  · exact scanOrder_bounds p
  · rintro ⟨h1, h2⟩
    have : ∀ a, a < 8 → ∀ b, b < 8 → (a, b) ∈ scanOrder := by decide
    exact this p.1 h1 p.2 h2

theorem codePressed_iff (kb : Nat → Nat) (k : Nat) :
    codePressed kb k = true ↔
      ∃ r c, r < 8 ∧ c < 8 ∧ (keyscanOf kb r).testBit c = false ∧ matrixAt r c = some k := by
  simp only [codePressed, codePressedIn, List.any_eq_true, Bool.and_eq_true, beq_iff_eq,
    pressedAt, Bool.not_eq_true']
  constructor
  · rintro ⟨p, hp, hpr, hk⟩
    obtain ⟨h1, h2⟩ := scanOrder_bounds p hp
    exact ⟨p.1, p.2, h1, h2, hpr, by rw [matrixAt_eq _ h1 _ h2, hk]⟩
  · rintro ⟨r, c, h1, h2, hpr, hk⟩
    refine ⟨(r, c), (mem_scanOrder (r, c)).2 ⟨h1, h2⟩, hpr, ?_⟩
    simp [codeAt, hk]

/-- The flags and the character after a scan pass that started with no key hit pending. -/
theorem scanResult_flags (kb : Nat → Nat) (s : KbState) :
    (scanResult kb s).2.g_bShiftOn = (codePressed kb 44 || codePressed kb 45) ∧
    (scanResult kb s).2.g_bLock = codePressed kb 45 ∧
    (scanResult kb s).2.g_bCtrl = codePressed kb 46 ∧
    (scanResult kb s).2.g_bFunc = codePressed kb 48 ∧
    (∀ p, (pressedPrintable kb).getLast? = some p →
      (scanResult kb s).2.g_bKeyHit = true ∧ (scanResult kb s).2.g_ucKeyCode = codeAt p.1 p.2 ∧
      (scanResult kb s).2.g_cKey = convKeyCode2Char (codePressed kb 44 || codePressed kb 45)
        (codePressed kb 46) (codePressed kb 48) (codeAt p.1 p.2)) ∧
    ((pressedPrintable kb).getLast? = none →
      (scanResult kb s).2.g_bKeyHit = s.g_bKeyHit ∧ (scanResult kb s).2.g_cKey = 0) := by
  unfold scanResult
  cases h : (pressedPrintable kb).getLast? <;> simp

/-- C11 (amended): shift-lock is not kept by the firmware.  Every scan pass that starts
with no key hit pending resets the four flags first, so after a pass in which neither
the shift key (44) nor the shift-lock key (45) is reported pressed g_bShiftOn and g_bLock
are false, whatever they were before, and a key latched in that pass resolves with shift
off (a letter key to its lowercase character). -/
theorem C11_shift_lock_reset_each_pass (kb : Nat → Nat) (s : KbState)
    (h : s.g_bKeyHit = false)
    (h44 : codePressed kb 44 = false) (h45 : codePressed kb 45 = false) :
    ∃ r s1, ScanKb kb s = some (r, s1) ∧ s1.g_bShiftOn = false ∧ s1.g_bLock = false ∧
      (s1.g_bKeyHit = true →
        s1.g_cKey = convKeyCode2Char false s1.g_bCtrl s1.g_bFunc s1.g_ucKeyCode) := by
  obtain ⟨f1, f2, f3, f4, f5, f6⟩ := scanResult_flags kb s
  refine ⟨(scanResult kb s).1, (scanResult kb s).2, ScanKb_idle_eq kb s h,
    by rw [f1, h44, h45]; rfl, by rw [f2, h45], ?_⟩
  intro hhit
  cases hl : (pressedPrintable kb).getLast? with
  | none => rw [(f6 hl).1, h] at hhit; cases hhit
  | some p =>
    obtain ⟨-, hc, hk⟩ := f5 p hl
    rw [hk, hc, f3, f4, h44, h45]; rfl

theorem C11_shift_lock_reset_each_pass_witness :
    ({ powerOn with g_bShiftOn := true, g_bLock := true } : KbState).g_bKeyHit = false ∧
    codePressed kbScanCode24 44 = false ∧ codePressed kbScanCode24 45 = false ∧
    ∃ r s1, ScanKb kbScanCode24 { powerOn with g_bShiftOn := true, g_bLock := true } =
        some (r, s1) ∧ s1.g_bShiftOn = false ∧ s1.g_bLock = false ∧
      (s1.g_bKeyHit = true →
        s1.g_cKey = convKeyCode2Char false s1.g_bCtrl s1.g_bFunc s1.g_ucKeyCode) :=
  ⟨rfl, by decide, by decide,
    C11_shift_lock_reset_each_pass kbScanCode24 { powerOn with g_bShiftOn := true, g_bLock := true }
      rfl (by decide) (by decide)⟩

/-- C11 (as stated) fails: a first pass with only the shift-lock key pressed sets shift and
shift-lock and latches nothing; a second pass with only the key of scan code 24 pressed
leaves both flags false and resolves the key to the lowercase s (115), not to S. -/
theorem C11_counterexample :
    (ScanKb kbShiftLock powerOn).map
        (fun r => (r.1, r.2.g_bShiftOn, r.2.g_bLock, r.2.g_bKeyHit)) =
      some (0, true, true, false) ∧
    ((ScanKb kbShiftLock powerOn).bind fun r => ScanKb kbScanCode24 r.2).map
        (fun r => (r.2.g_bShiftOn, r.2.g_bLock, r.2.g_bKeyHit, r.2.g_cKey)) =
      some (false, false, true, ascii 's') ∧
    ascii 's' ≠ ascii 'S' := by
  decide

/-- C14: after a scan pass that started with no key hit pending, whatever the flags were
before, g_bShiftOn holds exactly when code 44 or 45 is reported pressed somewhere in the
matrix, g_bLock exactly when 45 is, g_bCtrl exactly when 46 is and g_bFunc exactly when 48
is; when a key was latched, g_cKey is convKeyCode2Char of g_ucKeyCode under these final
flags, wherever the modifier keys sit: shift at row 5 column 0 with scan code 1 at row 4
column 5 gives the exclamation mark. -/
theorem C14_modifiers_combine (kb : Nat → Nat) (s : KbState) (h : s.g_bKeyHit = false) :
    (∃ r s1, ScanKb kb s = some (r, s1) ∧
      s1.g_bShiftOn = (codePressed kb 44 || codePressed kb 45) ∧
      s1.g_bLock = codePressed kb 45 ∧ s1.g_bCtrl = codePressed kb 46 ∧
      s1.g_bFunc = codePressed kb 48 ∧
      (s1.g_bKeyHit = true →
        s1.g_cKey = convKeyCode2Char s1.g_bShiftOn s1.g_bCtrl s1.g_bFunc s1.g_ucKeyCode)) ∧
    (∀ k, codePressed kb k = true ↔
      ∃ r c, r < 8 ∧ c < 8 ∧ (keyscanOf kb r).testBit c = false ∧ matrixAt r c = some k) ∧
    (matrixAt 5 0 = some 44 ∧ matrixAt 4 5 = some 1 ∧
      (ScanKb kbShift1 powerOn).map (fun r => (r.2.g_bShiftOn, r.2.g_ucKeyCode, r.2.g_cKey)) =
        some (true, 1, ascii '!')) := by
  obtain ⟨f1, f2, f3, f4, f5, f6⟩ := scanResult_flags kb s
  refine ⟨⟨(scanResult kb s).1, (scanResult kb s).2, ScanKb_idle_eq kb s h, f1, f2, f3, f4, ?_⟩,
    codePressed_iff kb, by decide⟩
  intro hhit
  cases hl : (pressedPrintable kb).getLast? with
  | none => rw [(f6 hl).1, h] at hhit; cases hhit
  | some p =>
    obtain ⟨-, hc, hk⟩ := f5 p hl
    rw [hk, hc, f1, f3, f4]

theorem C14_modifiers_combine_witness :
    powerOn.g_bKeyHit = false ∧
    ∃ r s1, ScanKb kbShift1 powerOn = some (r, s1) ∧
      s1.g_bShiftOn = (codePressed kbShift1 44 || codePressed kbShift1 45) ∧
      s1.g_bLock = codePressed kbShift1 45 ∧ s1.g_bCtrl = codePressed kbShift1 46 ∧
      s1.g_bFunc = codePressed kbShift1 48 ∧
      (s1.g_bKeyHit = true →
        s1.g_cKey = convKeyCode2Char s1.g_bShiftOn s1.g_bCtrl s1.g_bFunc s1.g_ucKeyCode) :=
  ⟨rfl, (C14_modifiers_combine kbShift1 powerOn rfl).1⟩

/-! ## Ring buffer: invariant and capacity -/

theorem nextIndex_eq_mod (i : Nat) (h : i < KEYBUFLEN) : nextIndex i = (i + 1) % 10 := by
  simp only [nextIndex, KEYBUFLEN] at *
  split <;> omega

theorem pushed_ok (kc : Nat) (s : KbState) (h : BufOk s) :
    BufOk (pushed kc s) ∧
    (pushed kc s).g_ucaKeyBuf[(pushed kc s).g_ucKeyBufEndIndex]? = some 0 := by
  obtain ⟨hl, hh, ht⟩ := h
  obtain ⟨-, hn⟩ := nextIndex_ne _ ht
  refine ⟨⟨by simpa [pushed] using hl, hh, hn⟩, ?_⟩
  simp only [pushed]
  rw [List.getElem?_set_self (by rw [List.length_set, hl]; exact hn)]

theorem popped_ok (s : KbState) (h : BufOk s) : BufOk (popped s) := by
  obtain ⟨hl, hh, ht⟩ := h
  obtain ⟨-, hn⟩ := nextIndex_ne _ hh
  exact ⟨by simpa [popped] using hl, hn, ht⟩

theorem getKeyFromBuf_total (s : KbState) (h : BufOk s) :
    ∃ v s1, getKeyFromBuf s = some (v, s1) ∧ BufOk s1 := by
  by_cases he : s.g_ucKeyBufStartIndex = s.g_ucKeyBufEndIndex
  · exact ⟨0, s, getKeyFromBuf_empty s he, h⟩
  · exact ⟨_, _, getKeyFromBuf_ok s h he, popped_ok s h⟩

theorem runBufOps_ok (ops : List BufOp) :
    ∀ s : KbState, BufOk s → ∃ s1, runBufOps ops s = some s1 ∧ BufOk s1 := by
  induction ops with
  | nil => intro s h; exact ⟨s, rfl, h⟩
  | cons op ops ih =>
    intro s h
    cases op with
    | push kc =>
      obtain ⟨s2, e2, ok2⟩ := ih (pushed kc s) (pushed_ok kc s h).1
      exact ⟨s2, by simp [runBufOps, add2KeyBuf_ok kc s h, e2], ok2⟩
    | pop =>
      obtain ⟨v, s1, e1, ok1⟩ := getKeyFromBuf_total s h
      obtain ⟨s2, e2, ok2⟩ := ih s1 ok1
      exact ⟨s2, by simp [runBufOps, e1, e2], ok2⟩

/-- C12: for a buffer state with its ten slots and both indexes below 10, getKeyFromBuf
returns 0 and changes nothing when head = tail; otherwise it returns the byte stored at
head, sets that slot to 0, sets head to (head + 1) mod 10 and leaves tail, every other
slot and the rest of the state unchanged. -/
theorem C12_pop_specification (s : KbState) (h : BufOk s) :
    (s.g_ucKeyBufStartIndex = s.g_ucKeyBufEndIndex → getKeyFromBuf s = some (0, s)) ∧
    (s.g_ucKeyBufStartIndex ≠ s.g_ucKeyBufEndIndex →
      ∃ v s1, getKeyFromBuf s = some (v, s1) ∧
        s.g_ucaKeyBuf[s.g_ucKeyBufStartIndex]? = some v ∧
        s1.g_ucaKeyBuf[s.g_ucKeyBufStartIndex]? = some 0 ∧
        (∀ i, i ≠ s.g_ucKeyBufStartIndex → s1.g_ucaKeyBuf[i]? = s.g_ucaKeyBuf[i]?) ∧
        s1.g_ucKeyBufStartIndex = (s.g_ucKeyBufStartIndex + 1) % 10 ∧
        s1.g_ucKeyBufEndIndex = s.g_ucKeyBufEndIndex ∧
        s1 = { s with g_ucaKeyBuf := s1.g_ucaKeyBuf,
                      g_ucKeyBufStartIndex := s1.g_ucKeyBufStartIndex }) := by
  refine ⟨getKeyFromBuf_empty s, fun hne => ?_⟩
  obtain ⟨hl, hh, ht⟩ := h
  have hlt : s.g_ucKeyBufStartIndex < s.g_ucaKeyBuf.length := by rw [hl]; exact hh
  refine ⟨_, popped s, getKeyFromBuf_ok s ⟨hl, hh, ht⟩ hne, ?_, ?_, ?_, ?_, rfl, rfl⟩
  · rw [List.getD_eq_getElem?_getD, List.getElem?_eq_getElem hlt]; rfl
  · simp only [popped]; rw [List.getElem?_set_self hlt]
  · intro i hi
    simp only [popped]; rw [List.getElem?_set_ne (Ne.symm hi)]
  · exact nextIndex_eq_mod _ hh

theorem C12_pop_specification_witness :
    BufOk (pushed 65 powerOn) ∧
    (pushed 65 powerOn).g_ucKeyBufStartIndex ≠ (pushed 65 powerOn).g_ucKeyBufEndIndex ∧
    ∃ v s1, getKeyFromBuf (pushed 65 powerOn) = some (v, s1) ∧
      (pushed 65 powerOn).g_ucaKeyBuf[(pushed 65 powerOn).g_ucKeyBufStartIndex]? = some v ∧
      s1.g_ucaKeyBuf[(pushed 65 powerOn).g_ucKeyBufStartIndex]? = some 0 ∧
      (∀ i, i ≠ (pushed 65 powerOn).g_ucKeyBufStartIndex →
        s1.g_ucaKeyBuf[i]? = (pushed 65 powerOn).g_ucaKeyBuf[i]?) ∧
      s1.g_ucKeyBufStartIndex = ((pushed 65 powerOn).g_ucKeyBufStartIndex + 1) % 10 ∧
      s1.g_ucKeyBufEndIndex = (pushed 65 powerOn).g_ucKeyBufEndIndex ∧
      s1 = { pushed 65 powerOn with g_ucaKeyBuf := s1.g_ucaKeyBuf,
                                    g_ucKeyBufStartIndex := s1.g_ucKeyBufStartIndex } :=
  ⟨by decide, by decide,
    (C12_pop_specification (pushed 65 powerOn) (by decide)).2 (by decide)⟩

/-- C17: the buffer has its ten slots and head < 10, tail < 10 after init_vars; from any
such state add2KeyBuf (for every argument) and getKeyFromBuf return a result, so every
array access they make is in bounds, and they keep head < 10 and tail < 10; the same holds
after any sequence of the two calls; the slot at tail is 0 after every add2KeyBuf. -/
theorem C17_index_invariant (s : KbState) (kc : Nat) (ops : List BufOp) :
    (BufOk s ↔ (s.g_ucaKeyBuf.length = 10 ∧ s.g_ucKeyBufStartIndex < 10 ∧
      s.g_ucKeyBufEndIndex < 10)) ∧
    (s.g_ucaKeyBuf.length = KEYBUFLEN → ∃ s0, init_vars s = some s0 ∧ BufOk s0) ∧
    (BufOk s → ∃ s1, add2KeyBuf kc s = some s1 ∧ BufOk s1 ∧
      s1.g_ucaKeyBuf[s1.g_ucKeyBufEndIndex]? = some 0) ∧
    (BufOk s → ∃ v s1, getKeyFromBuf s = some (v, s1) ∧ BufOk s1) ∧
    (BufOk s → ∃ s1, runBufOps ops s = some s1 ∧ BufOk s1) := by
  refine ⟨Iff.rfl, ?_, ?_, getKeyFromBuf_total s, runBufOps_ok ops s⟩
  · intro hs
    exact ⟨_, init_vars_eq s hs, initialised_ok s⟩
  · intro h
    exact ⟨_, add2KeyBuf_ok kc s h, (pushed_ok kc s h).1, (pushed_ok kc s h).2⟩

theorem C17_index_invariant_witness :
    powerOn.g_ucaKeyBuf.length = KEYBUFLEN ∧ BufOk powerOn ∧
    (∃ s0, init_vars powerOn = some s0 ∧ BufOk s0) ∧
    (∃ s1, add2KeyBuf 200 powerOn = some s1 ∧ BufOk s1 ∧
      s1.g_ucaKeyBuf[s1.g_ucKeyBufEndIndex]? = some 0) ∧
    (∃ v s1, getKeyFromBuf powerOn = some (v, s1) ∧ BufOk s1) ∧
    (∃ s1, runBufOps [BufOp.push 1, BufOp.pop, BufOp.pop, BufOp.push 2, BufOp.push 3] powerOn =
      some s1 ∧ BufOk s1) :=
  ⟨by decide, by decide,
    (C17_index_invariant powerOn 200 []).2.1 (by decide),
    (C17_index_invariant powerOn 200 []).2.2.1 (by decide),
    (C17_index_invariant powerOn 200 []).2.2.2.1 (by decide),
    (C17_index_invariant powerOn 200
      [BufOp.push 1, BufOp.pop, BufOp.pop, BufOp.push 2, BufOp.push 3]).2.2.2.2 (by decide)⟩

/-- Ten pushes onto an empty buffer bring the tail index back onto the head index. -/
theorem pushAll_ten (s : KbState) (cs : List Nat) (h : BufOk s)
    (he : s.g_ucKeyBufStartIndex = s.g_ucKeyBufEndIndex) (hK : cs.length = 10) :
    ∃ s1, pushAll cs s = some s1 ∧ BufOk s1 ∧
      s1.g_ucKeyBufStartIndex = s1.g_ucKeyBufEndIndex ∧
      s1.g_ucKeyBufStartIndex = s.g_ucKeyBufStartIndex := by
  obtain ⟨c, hc⟩ : ∃ c, cs = cs.dropLast ++ [c] :=
    ⟨cs.getLast (by intro h0; simp [h0] at hK), (List.dropLast_append_getLast _).symm⟩
  have hl : cs.dropLast.length = 9 := by simp [hK]
  have ht0 : s.g_ucKeyBufEndIndex = (s.g_ucKeyBufStartIndex + 0) % KEYBUFLEN := by
    have := h.2.1
    simp only [KEYBUFLEN] at this ⊢
    omega
  obtain ⟨s1, e1, ok1, hh1, ht1, -⟩ := pushAll_ring cs.dropLast s 0 h (by omega) ht0
  have hnext : nextIndex s1.g_ucKeyBufEndIndex = s.g_ucKeyBufStartIndex := by
    have := h.2.1
    rw [ht1, hl]
    simp only [nextIndex, KEYBUFLEN] at this ⊢
    split <;> omega
  refine ⟨pushed c s1, ?_, (pushed_ok c s1 ok1).1, ?_, ?_⟩
  · rw [hc, pushAll_append, e1]
    simp [pushAll, add2KeyBuf_ok c s1 ok1]
  · simp only [pushed]; rw [hnext, hh1]
  · simp only [pushed]; exact hh1

/-- C18: from any empty buffer (head = tail, any index below 10), K ≤ 9 pushes followed
by K pops return the bytes in push order, one more pop returns 0, and the buffer is empty
again with head = tail = (start index + K) mod 10; after exactly 10 pushes head = tail
again, so the full buffer reads as empty and getKeyFromBuf returns 0. -/
theorem C18_capacity_nine (s : KbState) (cs : List Nat) (h : BufOk s)
    (he : s.g_ucKeyBufStartIndex = s.g_ucKeyBufEndIndex) :
    (cs.length ≤ 9 → ∃ s1 s2, pushAll cs s = some s1 ∧ popN cs.length s1 = some (cs, s2) ∧
      getKeyFromBuf s2 = some (0, s2) ∧
      s2.g_ucKeyBufStartIndex = s2.g_ucKeyBufEndIndex ∧
      s2.g_ucKeyBufEndIndex = (s.g_ucKeyBufStartIndex + cs.length) % 10) ∧
    (cs.length = 10 → ∃ s1, pushAll cs s = some s1 ∧
      s1.g_ucKeyBufStartIndex = s1.g_ucKeyBufEndIndex ∧
      s1.g_ucKeyBufStartIndex = s.g_ucKeyBufStartIndex ∧
      getKeyFromBuf s1 = some (0, s1)) := by
  constructor
  · intro hK
    obtain ⟨s1, s2, e1, e2, -, hh2, ht2⟩ := ring_fifo s cs h he hK
    exact ⟨s1, s2, e1, e2, getKeyFromBuf_empty s2 hh2, hh2, ht2⟩
  · intro hK
    obtain ⟨s1, e1, -, hh1, hs1⟩ := pushAll_ten s cs h he hK
    exact ⟨s1, e1, hh1, hs1, getKeyFromBuf_empty s1 hh1⟩

theorem C18_capacity_nine_witness :
    BufOk { powerOn with g_ucKeyBufStartIndex := 7, g_ucKeyBufEndIndex := 7 } ∧
    ([1, 2, 3, 4, 5] : List Nat).length ≤ 9 ∧
    ∃ s1 s2,
      pushAll [1, 2, 3, 4, 5] { powerOn with g_ucKeyBufStartIndex := 7, g_ucKeyBufEndIndex := 7 }
        = some s1 ∧
      popN ([1, 2, 3, 4, 5] : List Nat).length s1 = some ([1, 2, 3, 4, 5], s2) ∧
      getKeyFromBuf s2 = some (0, s2) ∧
      s2.g_ucKeyBufStartIndex = s2.g_ucKeyBufEndIndex ∧
      s2.g_ucKeyBufEndIndex =
        (({ powerOn with g_ucKeyBufStartIndex := 7, g_ucKeyBufEndIndex := 7 } :
          KbState).g_ucKeyBufStartIndex + ([1, 2, 3, 4, 5] : List Nat).length) % 10 :=
  ⟨by decide, by decide,
    (C18_capacity_nine { powerOn with g_ucKeyBufStartIndex := 7, g_ucKeyBufEndIndex := 7 }
      [1, 2, 3, 4, 5] (by decide) rfl).1 (by decide)⟩

/-! ## Main loop: invariant -/

theorem conv_printable_all : ∀ q ∈ scanOrder, isPrintableCode (codeAt q.1 q.2) = true →
    ∀ sh c f : Bool, convKeyCode2Char sh c f (codeAt q.1 q.2) ≠ 0 ∧
      convKeyCode2Char sh c f (codeAt q.1 q.2) < 256 := by
  decide

/-- `ScanKb` leaves the ring buffer and the bus log alone. -/
theorem scanResult_frame (kb : Nat → Nat) (s : KbState) :
    (scanResult kb s).2.g_ucaKeyBuf = s.g_ucaKeyBuf ∧
    (scanResult kb s).2.g_ucKeyBufStartIndex = s.g_ucKeyBufStartIndex ∧
    (scanResult kb s).2.g_ucKeyBufEndIndex = s.g_ucKeyBufEndIndex ∧
    (scanResult kb s).2.bus = s.bus := by
  unfold scanResult
  cases (pressedPrintable kb).getLast? <;> simp

/-- After a scan pass that started with no key hit pending, a key hit is pending exactly
when a printable key was reported pressed, and then its character is a non-zero byte. -/
theorem scanResult_hit (kb : Nat → Nat) (s : KbState) (h : s.g_bKeyHit = false) :
    ((scanResult kb s).2.g_bKeyHit = false ∧ pressedPrintable kb = []) ∨
    ((scanResult kb s).2.g_bKeyHit = true ∧ (scanResult kb s).2.g_cKey ≠ 0 ∧
      (scanResult kb s).2.g_cKey < 256 ∧ pressedPrintable kb ≠ []) := by
  obtain ⟨-, -, -, -, f5, f6⟩ := scanResult_flags kb s
  cases hl : (pressedPrintable kb).getLast? with
  | none =>
    exact Or.inl ⟨by rw [(f6 hl).1, h], List.getLast?_eq_none_iff.1 hl⟩
  | some p =>
    obtain ⟨hh, -, hk⟩ := f5 p hl
    have hm := (mem_pressedPrintable kb p).1 (List.mem_of_getLast?_eq_some hl)
    obtain ⟨hne, hlt⟩ := conv_printable_all p hm.1 hm.2.2 (codePressed kb 44 || codePressed kb 45)
      (codePressed kb 46) (codePressed kb 48)
    refine Or.inr ⟨hh, by rw [hk]; exact hne, by rw [hk]; exact hlt, ?_⟩
    intro h0; rw [h0] at hl; cases hl

theorem main_drain_empty (s : KbState)
    (h : s.g_ucKeyBufStartIndex = s.g_ucKeyBufEndIndex) : main_drain 256 s = some s := by
  have : main_drain 256 s = (getKeyFromBuf s).bind fun r =>
      if r.1 ≠ 0 then (KbSerial_SendKey r.1 r.2).bind (main_drain 255) else some r.2 := rfl
  rw [this, getKeyFromBuf_empty s h]
  rfl

theorem bufCount_empty (s : KbState) (h : BufOk s)
    (he : s.g_ucKeyBufStartIndex = s.g_ucKeyBufEndIndex) : bufCount s = 0 := by
  have := h.2.1
  simp only [bufCount, KEYBUFLEN, he] at *
  omega

theorem bufCount_one (s : KbState) (h : BufOk s)
    (he : s.g_ucKeyBufEndIndex = nextIndex s.g_ucKeyBufStartIndex) : bufCount s = 1 := by
  have := h.2.1
  simp only [bufCount, KEYBUFLEN, he, nextIndex] at *
  split <;> omega

/-- One pass through the loop of `main` from a loop-top state, for any keyboard input. -/
theorem main_iteration_spec (kb : Nat → Nat) (s : KbState) (h : LoopTop s) :
    ∃ r s1 s2 s3, ScanKb kb s = some (r, s1) ∧ GetScannedKey s1 = some s2 ∧
      main_drain 256 s2 = some s3 ∧ main_iteration kb s = some s3 ∧ LoopTop s3 ∧
      bufCount s1 = 0 ∧ bufCount s3 = 0 ∧
      ((s1.g_bKeyHit = false ∧ s2 = s1 ∧ s3 = s1 ∧ bufCount s2 = 0) ∨
       (s1.g_bKeyHit = true ∧ s1.g_cKey ≠ 0 ∧ s1.g_cKey < 256 ∧ bufCount s2 = 1 ∧
        s2.g_ucaKeyBuf[s2.g_ucKeyBufStartIndex]? = some s1.g_cKey ∧
        s2.bus = s1.bus ++ [BusEvent.delay 115] ∧
        s3.bus = s2.bus ++ frameEvents s1.g_cKey)) := by
  obtain ⟨ok, he, hidle⟩ := h
  obtain ⟨hl, hh, ht⟩ := ok
  obtain ⟨fb, fh, ft, fbus⟩ := scanResult_frame kb s
  have hscan := ScanKb_idle_eq kb s hidle
  have ok1 : BufOk (scanResult kb s).2 := ⟨by rw [fb]; exact hl, by rw [fh]; exact hh,
    by rw [ft]; exact ht⟩
  have he1 : (scanResult kb s).2.g_ucKeyBufStartIndex = (scanResult kb s).2.g_ucKeyBufEndIndex := by
    rw [fh, ft]; exact he
  rcases scanResult_hit kb s hidle with ⟨hno, -⟩ | ⟨hhit, hne, hlt, -⟩
  · have hget : GetScannedKey (scanResult kb s).2 = some (scanResult kb s).2 := by
      simp [GetScannedKey, hno]
    have hdr := main_drain_empty _ he1
    refine ⟨(scanResult kb s).1, (scanResult kb s).2, (scanResult kb s).2, (scanResult kb s).2,
      hscan, hget, hdr, ?_, ⟨ok1, he1, hno⟩, bufCount_empty _ ok1 he1, bufCount_empty _ ok1 he1,
      Or.inl ⟨hno, rfl, rfl, bufCount_empty _ ok1 he1⟩⟩
    simp only [main_iteration, hscan, Option.some_bind, hget, hdr]
  · have hget := GetScannedKey_pending _ ok1 hhit hne
    obtain ⟨okp, -⟩ := pushed_ok (scanResult kb s).2.g_cKey _ ok1
    obtain ⟨hn1, hn2⟩ := nextIndex_ne _ ok1.2.2
    have ok2 : BufOk ({ pushed (scanResult kb s).2.g_cKey (scanResult kb s).2 with
        g_bKeyHit := false,
        bus := (scanResult kb s).2.bus ++ [BusEvent.delay 115] } : KbState) := okp
    have hslot : ({ pushed (scanResult kb s).2.g_cKey (scanResult kb s).2 with
        g_bKeyHit := false,
        bus := (scanResult kb s).2.bus ++ [BusEvent.delay 115] } : KbState).g_ucaKeyBuf[
          (scanResult kb s).2.g_ucKeyBufStartIndex]? = some (scanResult kb s).2.g_cKey := by
      simp only [pushed, he1]
      rw [List.getElem?_set_ne hn1, List.getElem?_set_self (by rw [ok1.1]; exact ok1.2.2)]
    have hnext : ({ pushed (scanResult kb s).2.g_cKey (scanResult kb s).2 with
        g_bKeyHit := false,
        bus := (scanResult kb s).2.bus ++ [BusEvent.delay 115] } : KbState).g_ucKeyBufEndIndex =
        nextIndex (scanResult kb s).2.g_ucKeyBufStartIndex := by
      simp only [pushed, he1]
    have hdr := main_drain_one _ (scanResult kb s).2.g_cKey ok2 hne hlt
      (by
        show List.getD _ (scanResult kb s).2.g_ucKeyBufStartIndex 0 = _
        rw [List.getD_eq_getElem?_getD]
        have := hslot
        simp only [pushed] at this ⊢
        rw [this]; rfl)
      hnext
    refine ⟨(scanResult kb s).1, (scanResult kb s).2, _, _, hscan, hget, hdr, ?_, ?_,
      bufCount_empty _ ok1 he1, ?_, Or.inr ⟨hhit, hne, hlt, bufCount_one _ ok2 hnext, hslot, rfl,
        rfl⟩⟩
    · simp only [main_iteration, hscan, Option.some_bind, hget, hdr]
    · refine ⟨popped_ok _ ok2, ?_, rfl⟩
      simp only [popped, pushed, he1]
    · apply bufCount_empty _ (popped_ok _ ok2)
      simp only [popped, pushed, he1]

theorem main_run_inv (kbs : List (Nat → Nat)) :
    ∀ s : KbState, LoopTop s → ∃ sn, main_run kbs s = some sn ∧ LoopTop sn := by
  induction kbs with
  | nil => intro s h; exact ⟨s, rfl, h⟩
  | cons kb kbs ih =>
    intro s h
    obtain ⟨-, -, -, s3, -, -, -, hit, h3, -⟩ := main_iteration_spec kb s h
    obtain ⟨sn, en, hn⟩ := ih s3 h3
    exact ⟨sn, by simp only [main_run, hit, Option.some_bind, en], hn⟩

theorem main_init_loopTop (s : KbState) (hs : s.g_ucaKeyBuf.length = KEYBUFLEN) :
    ∃ s0, main_init s = some s0 ∧ LoopTop s0 := by
  obtain ⟨s0, e0, ok0, hidle, hh0, ht0, -⟩ := main_init_eq s hs
  exact ⟨s0, e0, ok0, by rw [hh0, ht0], hidle⟩

/-- C13: in every state main reaches at the top of its loop, after any sequence of
keyboard inputs, the ring buffer is empty (head = tail) and no key hit is pending; in the
pass that follows, for any keyboard input, nothing is buffered after ScanKb, at most one
byte is buffered after GetScannedKey, the drain loop ends after sending at most one
frame, and the buffer is empty again: the overflow case is never reached. -/
theorem C13_loop_drains (s : KbState) (kbs : List (Nat → Nat)) (kb : Nat → Nat)
    (hs : s.g_ucaKeyBuf.length = KEYBUFLEN) :
    ∃ s0 sn, main_init s = some s0 ∧ main_run kbs s0 = some sn ∧
      (BufOk sn ∧ sn.g_ucKeyBufStartIndex = sn.g_ucKeyBufEndIndex ∧ sn.g_bKeyHit = false) ∧
      ∃ r s1 s2 s3, ScanKb kb sn = some (r, s1) ∧ GetScannedKey s1 = some s2 ∧
        main_drain 256 s2 = some s3 ∧ main_iteration kb sn = some s3 ∧
        bufCount s1 = 0 ∧ bufCount s2 ≤ 1 ∧ bufCount s3 = 0 ∧
        (s3.bus = s2.bus ∨ ∃ ch, s3.bus = s2.bus ++ frameEvents ch) ∧
        s3.g_ucKeyBufStartIndex = s3.g_ucKeyBufEndIndex ∧ s3.g_bKeyHit = false := by
  obtain ⟨s0, e0, h0⟩ := main_init_loopTop s hs
  obtain ⟨sn, en, hn⟩ := main_run_inv kbs s0 h0
  obtain ⟨r, s1, s2, s3, e1, e2, e3, eit, h3, c1, c3, hcase⟩ := main_iteration_spec kb sn hn
  refine ⟨s0, sn, e0, en, hn, r, s1, s2, s3, e1, e2, e3, eit, c1, ?_, c3, ?_, h3.2.1, h3.2.2⟩
  · rcases hcase with ⟨-, -, -, c2⟩ | ⟨-, -, -, c2, -⟩
    · rw [c2]; exact Nat.zero_le _
    · rw [c2]
  · rcases hcase with ⟨-, e21, e31, -⟩ | ⟨-, -, -, -, -, -, hb⟩
    · exact Or.inl (by rw [e31, e21])
    · exact Or.inr ⟨_, hb⟩

theorem C13_loop_drains_witness :
    powerOn.g_ucaKeyBuf.length = KEYBUFLEN ∧
    ∃ s0 sn, main_init powerOn = some s0 ∧
      main_run [kbScanCode1, kbShift1, kbScanCode24] s0 = some sn ∧
      (BufOk sn ∧ sn.g_ucKeyBufStartIndex = sn.g_ucKeyBufEndIndex ∧ sn.g_bKeyHit = false) ∧
      ∃ r s1 s2 s3, ScanKb kbScanCode1 sn = some (r, s1) ∧ GetScannedKey s1 = some s2 ∧
        main_drain 256 s2 = some s3 ∧ main_iteration kbScanCode1 sn = some s3 ∧
        bufCount s1 = 0 ∧ bufCount s2 ≤ 1 ∧ bufCount s3 = 0 ∧
        (s3.bus = s2.bus ∨ ∃ ch, s3.bus = s2.bus ++ frameEvents ch) ∧
        s3.g_ucKeyBufStartIndex = s3.g_ucKeyBufEndIndex ∧ s3.g_bKeyHit = false :=
  ⟨by decide,
    C13_loop_drains powerOn [kbScanCode1, kbShift1, kbScanCode24] kbScanCode1 (by decide)⟩

/-! ## Character values -/

set_option maxRecDepth 100000 in
theorem conv_high_bool : ∀ kc, kc ≤ 48 → ∀ sh c f : Bool,
    decide (128 ≤ convKeyCode2Char sh c f kc) =
      (f && (kc == 14 || kc == 25 || kc == 36 || (kc == 24 && !c))) := by
  decide

theorem conv_high_upto_48 (kc : Nat) (hk : kc ≤ 48) (sh c f : Bool) :
    (128 ≤ convKeyCode2Char sh c f kc ↔
      (f = true ∧ (kc = 14 ∨ kc = 25 ∨ kc = 36 ∨ (kc = 24 ∧ c = false)))) := by
  have h := conv_high_bool kc hk sh c f
  constructor
  · intro h1
    have h2 : decide (128 ≤ convKeyCode2Char sh c f kc) = true := decide_eq_true h1
    rw [h] at h2
    simpa [or_assoc] using h2
  · intro h1
    have h2 : (f && (kc == 14 || kc == 25 || kc == 36 || (kc == 24 && !c))) = true := by
      simpa [or_assoc] using h1
    rw [← h] at h2
    exact of_decide_eq_true h2

set_option maxRecDepth 100000 in
theorem conv_byte_upto_48 : ∀ kc, kc ≤ 48 → ∀ sh c f : Bool,
    convKeyCode2Char sh c f kc < 256 := by
  decide

theorem char_round_trip : ∀ b, b < 256 →
    byteOfChar (charOfByte b) = b ∧ (charOfByte b = 0 ↔ b = 0) := by
  intro b hb
  unfold byteOfChar charOfByte
  split <;> constructor <;> omega

theorem matrixAt_some (r c k : Nat) (h : matrixAt r c = some k) : r < 8 ∧ c < 8 := by
  by_cases hr : r < 8
  · refine ⟨hr, ?_⟩
    by_cases hc : c < 8
    · exact hc
    · exfalso
      have h8 : ∀ r, r < 8 → ∀ c, 8 ≤ c → matrixAt r c = none := by
        intro r hr c hc
        unfold matrixAt
        have hlen : ∀ r, r < 8 → ∀ row, g_ucaKbMatrix[r]? = some row → row.length = 8 := by
          decide
        cases hrow : g_ucaKbMatrix[r]? with
        | none => rfl
        | some row =>
          simp only [Option.some_bind]
          exact List.getElem?_eq_none (by rw [hlen r hr row hrow]; exact hc)
      rw [h8 r hr c (by omega)] at h
      cases h
  · exfalso
    have : g_ucaKbMatrix[r]? = none := List.getElem?_eq_none (by
      have : g_ucaKbMatrix.length = 8 := rfl
      omega)
    simp [matrixAt, this] at h

/-- C16: convKeyCode2Char returns a value of 128 or more exactly when function is on and
the code is 14 (128), 25 (130), 36 (131), or 24 with control off (129); every other result
is below 128.  In a pass of the main loop the value latched in g_cKey is the byte put into
the ring buffer and the byte framed on the bus; the conversions through the char type keep
every 8-bit pattern and its being non-zero. -/
theorem C16_values_above_127 (kc : Nat) (sh c f : Bool) (kb : Nat → Nat) (s : KbState)
    (h : LoopTop s) :
    ((128 ≤ convKeyCode2Char sh c f kc ↔
        (f = true ∧ (kc = 14 ∨ kc = 25 ∨ kc = 36 ∨ (kc = 24 ∧ c = false)))) ∧
      convKeyCode2Char sh c f kc < 256 ∧
      convKeyCode2Char sh c true 14 = 128 ∧ convKeyCode2Char sh false true 24 = 129 ∧
      convKeyCode2Char sh c true 25 = 130 ∧ convKeyCode2Char sh c true 36 = 131) ∧
    (∃ r s1 s2 s3, ScanKb kb s = some (r, s1) ∧ GetScannedKey s1 = some s2 ∧
      main_drain 256 s2 = some s3 ∧
      (s1.g_bKeyHit = true →
        s1.g_cKey = convKeyCode2Char s1.g_bShiftOn s1.g_bCtrl s1.g_bFunc s1.g_ucKeyCode ∧
        s2.g_ucaKeyBuf[s2.g_ucKeyBufStartIndex]? = some s1.g_cKey ∧
        s3.bus = s1.bus ++ [BusEvent.delay 115] ++ frameEvents s1.g_cKey)) ∧
    (∀ b, b < 256 → byteOfChar (charOfByte b) = b ∧ (charOfByte b = 0 ↔ b = 0)) ∧
    ((ScanKb kbFuncE powerOn).map (fun r => r.2.g_cKey) = some 128 ∧
      bitsMSB 128 = [true, false, false, false, false, false, false, false]) := by
  have hv : ∀ sh c : Bool, convKeyCode2Char sh c true 14 = 128 ∧
      convKeyCode2Char sh false true 24 = 129 ∧
      convKeyCode2Char sh c true 25 = 130 ∧ convKeyCode2Char sh c true 36 = 131 := by decide
  refine ⟨?_, ?_, char_round_trip, by decide⟩
  · by_cases hk : kc ≤ 48
    · exact ⟨conv_high_upto_48 kc hk sh c f, conv_byte_upto_48 kc hk sh c f, hv sh c⟩
    · have hk : 48 < kc := by omega
      refine ⟨?_, ?_, hv sh c⟩
      · rw [convKeyCode2Char_above sh c f kc hk]
        constructor
        · intro h0; omega
        · rintro ⟨-, h0⟩; omega
      · rw [convKeyCode2Char_above sh c f kc hk]; decide
  · obtain ⟨r, s1, s2, s3, e1, e2, e3, -, -, -, -, hcase⟩ := main_iteration_spec kb s h
    refine ⟨r, s1, s2, s3, e1, e2, e3, ?_⟩
    intro hhit
    have hs1 : s1 = (scanResult kb s).2 := by
      have := ScanKb_idle_eq kb s h.2.2
      rw [e1] at this
      simp only [Option.some.injEq] at this
      rw [← this]
    obtain ⟨f1, -, f3, f4, f5, f6⟩ := scanResult_flags kb s
    rcases hcase with ⟨hno, -⟩ | ⟨-, -, -, -, hslot, hb2, hb3⟩
    · rw [hno] at hhit; cases hhit
    · refine ⟨?_, hslot, by rw [hb3, hb2]⟩
      subst hs1
      cases hl : (pressedPrintable kb).getLast? with
      | none => rw [(f6 hl).1, h.2.2] at hhit; cases hhit
      | some p =>
        obtain ⟨-, hc, hk⟩ := f5 p hl
        rw [hk, hc, f1, f3, f4]

theorem C16_values_above_127_witness :
    LoopTop powerOn ∧
    (∃ r s1 s2 s3, ScanKb kbFuncE powerOn = some (r, s1) ∧ GetScannedKey s1 = some s2 ∧
      main_drain 256 s2 = some s3 ∧
      (s1.g_bKeyHit = true →
        s1.g_cKey = convKeyCode2Char s1.g_bShiftOn s1.g_bCtrl s1.g_bFunc s1.g_ucKeyCode ∧
        s2.g_ucaKeyBuf[s2.g_ucKeyBufStartIndex]? = some s1.g_cKey ∧
        s3.bus = s1.bus ++ [BusEvent.delay 115] ++ frameEvents s1.g_cKey)) :=
  ⟨by decide, (C16_values_above_127 14 false false true kbFuncE powerOn (by decide)).2.1⟩

/-- C20: for every matrix position whose scan code is neither 0 nor a modifier code and
for all combinations of the three flags convKeyCode2Char of that code is non-zero, and
scan code 34 is nowhere in the matrix; hence whenever a scan pass that started with no key
hit pending latches a key hit, g_cKey is non-zero and GetScannedKey makes exactly one
add2KeyBuf call, of that non-zero character. -/
theorem C20_printable_keys_yield_char (kb : Nat → Nat) (s : KbState)
    (h : s.g_bKeyHit = false) :
    (∀ r c k, matrixAt r c = some k → k ≠ 0 → k ≠ 44 → k ≠ 45 → k ≠ 46 → k ≠ 48 →
      ∀ sh ct f : Bool, convKeyCode2Char sh ct f k ≠ 0) ∧
    (∀ r c, matrixAt r c ≠ some 34) ∧
    (∃ r s1, ScanKb kb s = some (r, s1) ∧
      (s1.g_bKeyHit = true → s1.g_cKey ≠ 0 ∧
        GetScannedKey s1 = (add2KeyBuf s1.g_cKey s1).bind
          (fun s2 => some { delms KEYRD_DEL s2 with g_bKeyHit := false }) ∧
        (BufOk s → GetScannedKey s1 = some { pushed s1.g_cKey s1 with
          g_bKeyHit := false, bus := s1.bus ++ [BusEvent.delay 115] }))) := by
  refine ⟨?_, ?_, ?_⟩
  · intro r c k hk h0 h44 h45 h46 h48 sh ct f
    obtain ⟨hr, hc⟩ := matrixAt_some r c k hk
    have hca : codeAt r c = k := by simp [codeAt, hk]
    have hp : isPrintableCode (codeAt r c) = true := by
      rw [hca]; simp [isPrintableCode, isModifierCode, h0, h44, h45, h46, h48]
    have := (conv_printable_all (r, c) ((mem_scanOrder (r, c)).2 ⟨hr, hc⟩) hp sh ct f).1
    rwa [hca] at this
  · intro r c hk
    obtain ⟨hr, hc⟩ := matrixAt_some r c 34 hk
    have : ∀ r, r < 8 → ∀ c, c < 8 → matrixAt r c ≠ some 34 := by decide
    exact this r hr c hc hk
  · refine ⟨(scanResult kb s).1, (scanResult kb s).2, ScanKb_idle_eq kb s h, ?_⟩
    intro hhit
    rcases scanResult_hit kb s h with ⟨hno, -⟩ | ⟨-, hne, -, -⟩
    · rw [hno] at hhit; cases hhit
    · obtain ⟨fb, fh, ft, -⟩ := scanResult_frame kb s
      refine ⟨hne, ?_, ?_⟩
      · simp only [GetScannedKey, hhit, if_true, ne_eq, hne, not_false_eq_true]
        cases add2KeyBuf (scanResult kb s).2.g_cKey (scanResult kb s).2 <;> rfl
      · intro ok
        exact GetScannedKey_pending _ ⟨by rw [fb]; exact ok.1, by rw [fh]; exact ok.2.1,
          by rw [ft]; exact ok.2.2⟩ hhit hne

theorem C20_printable_keys_yield_char_witness :
    powerOn.g_bKeyHit = false ∧
    ∃ r s1, ScanKb kbScanCode24 powerOn = some (r, s1) ∧
      (s1.g_bKeyHit = true → s1.g_cKey ≠ 0 ∧
        GetScannedKey s1 = (add2KeyBuf s1.g_cKey s1).bind
          (fun s2 => some { delms KEYRD_DEL s2 with g_bKeyHit := false }) ∧
        (BufOk powerOn → GetScannedKey s1 = some { pushed s1.g_cKey s1 with
          g_bKeyHit := false, bus := s1.bus ++ [BusEvent.delay 115] })) :=
  ⟨rfl, (C20_printable_keys_yield_char kbScanCode24 powerOn rfl).2.2⟩

/-! ## Receiver -/

theorem lineOf_frame (d c b : Nat) : lineOf d c (frameEvents b) = lineOf 0 0 (frameEvents b) :=
  rfl

set_option maxRecDepth 1000000 in
theorem receive_frame : ∀ b, b < 256 →
    (afterStart (lineOf 0 0 (frameEvents b))).bind (get_byte 1 0) = some b ∧
    (afterStart (lineOf 0 0 (frameEvents b))).bind (get_byte 0 1) = some b ∧
    (lineOf 0 0 (frameEvents b)).drop 3 = (bitsMSB b).flatMap (fun bit =>
      [(if bit then 1 else 0, 1), (if bit then 1 else 0, 0)]) := by
  decide

/-- C15: for every byte b, the receiver of the header comment (start detection, then at
each of 8 clock pulses shift left and OR in the data input, then mask with 0xFF) run over
the line produced by KbSerial_SendKey(b) returns b, whether it samples while the clock is
HIGH or right after it went LOW; during each clock HIGH + LOW cycle the data input is the
same bit. -/
theorem C15_receiver_round_trip (b : Nat) (s : KbState) (hb : b < 256) :
    ∃ s1, KbSerial_SendKey b s = some s1 ∧ s1.bus = s.bus ++ frameEvents b ∧
      (afterStart (lineOf s.SDA_OUT s.SCL_OUT (frameEvents b))).bind (get_byte 1 0) = some b ∧
      (afterStart (lineOf s.SDA_OUT s.SCL_OUT (frameEvents b))).bind (get_byte 0 1) = some b ∧
      (lineOf s.SDA_OUT s.SCL_OUT (frameEvents b)).drop 3 = (bitsMSB b).flatMap (fun bit =>
        [(if bit then 1 else 0, 1), (if bit then 1 else 0, 0)]) := by
  obtain ⟨h1, h2, h3⟩ := receive_frame b hb
  refine ⟨_, KbSerial_SendKey_eq b s hb, rfl, ?_, ?_, ?_⟩
  · rw [lineOf_frame]; exact h1
  · rw [lineOf_frame]; exact h2
  · rw [lineOf_frame]; exact h3

theorem C15_receiver_round_trip_witness :
    (0x41 < 256) ∧
    ∃ s1, KbSerial_SendKey 0x41 powerOn = some s1 ∧ s1.bus = powerOn.bus ++ frameEvents 0x41 ∧
      (afterStart (lineOf powerOn.SDA_OUT powerOn.SCL_OUT (frameEvents 0x41))).bind
        (get_byte 1 0) = some 0x41 ∧
      (afterStart (lineOf powerOn.SDA_OUT powerOn.SCL_OUT (frameEvents 0x41))).bind
        (get_byte 0 1) = some 0x41 ∧
      (lineOf powerOn.SDA_OUT powerOn.SCL_OUT (frameEvents 0x41)).drop 3 =
        (bitsMSB 0x41).flatMap (fun bit =>
          [(if bit then 1 else 0, 1), (if bit then 1 else 0, 0)]) :=
  ⟨by decide, C15_receiver_round_trip 0x41 powerOn (by decide)⟩

/-! ## Scan loops: bounds -/

/-- The inner loop of `ScanKb` needs more fuel than it has iterations left. -/
theorem ScanKb_cols_fuel (kb : Nat → Nat) (r : Nat) (hr : r < 8) :
    ∀ (n col fuel : Nat) (rs : Nat × KbState), col + n = 8 → fuel ≤ n →
    ScanKb_cols (keyscanOf kb r) r fuel (2 ^ col % 256) col rs = none := by
  intro n
  induction n with
  | zero =>
    intro col fuel rs _ hf
    have : fuel = 0 := by omega
    subst this
    rfl
  | succ n ih =>
    intro col fuel rs hc hf
    cases fuel with
    | zero => rfl
    | succ f =>
      have hcol : col < 8 := by omega
      obtain ⟨h1, h2, h3, -⟩ := mask_shift col hcol
      rw [ScanKb_cols, if_pos h1, matrixAt_eq r hr col hcol, h2, h3]
      simp only [Option.some_bind]
      split
      · simp only [Option.some_bind]
        exact ih (col + 1) f _ (by omega) (by omega)
      · simp only [Option.some_bind]
        exact ih (col + 1) f _ (by omega) (by omega)

/-- The outer loop of `ScanKb` needs more fuel than it has iterations left. -/
theorem ScanKb_rows_fuel (kb : Nat → Nat) :
    ∀ (n row fuel : Nat) (rs : Nat × KbState), row + n = 8 → fuel ≤ n →
    ScanKb_rows kb fuel (2 ^ row % 256) row rs = none := by
  intro n
  induction n with
  | zero =>
    intro row fuel rs _ hf
    have : fuel = 0 := by omega
    subst this
    rfl
  | succ n ih =>
    intro row fuel rs hc hf
    cases fuel with
    | zero => rfl
    | succ f =>
      have hrow : row < 8 := by omega
      obtain ⟨h1, h2, h3, h4⟩ := mask_shift row hrow
      rw [ScanKb_rows, if_pos h1, h2, h3]
      have hks : kb (255 - 2 ^ row % 256) % 256 = keyscanOf kb row := by rw [h4]; rfl
      simp only [hks]
      have hc := ScanKb_cols_eq kb row hrow 8 0 256 (rs.1, { rs.2 with KBP2 := 255, KBP1 := 255 })
        rfl (by decide)
      simp only [Nat.pow_zero, Nat.one_mod] at hc
      split
      · simp only [hc, Option.some_bind]
        exact ih (row + 1) f _ (by omega) (by omega)
      · simp only [Option.some_bind]
        exact ih (row + 1) f _ (by omega) (by omega)

theorem ScanKb_total (kb : Nat → Nat) (s : KbState) : ∃ ret s1, ScanKb kb s = some (ret, s1) := by
  cases h : s.g_bKeyHit with
  | true => exact ⟨0, s, by simp [ScanKb, h]⟩
  | false => exact ⟨_, _, ScanKb_idle_eq kb s h⟩

/-- C19: the row mask and the column mask are 8-bit values that start at 1 and are
shifted left until they become 0: 2^k mod 256 is non-zero for k < 8, shifts to
2^(k+1) mod 256, and 2^8 mod 256 = 0.  So for every keyboard input the outer loop of ScanKb
runs its body exactly 8 times, for row = 0..7 (fuel for 8 passes and the exit test is
enough, fuel for less is not), driving 255 - 2^row, whose only low bit is bit row; the
inner loop runs exactly 8 times, for col = 0..7; ScanKb returns, and every access to
g_ucaKbMatrix it makes is inside the table. -/
theorem C19_scan_loops_bounded (kb : Nat → Nat) (s : KbState) (rs : Nat × KbState) (r : Nat)
    (hr : r < 8) :
    (∀ k, k < 8 → 2 ^ k % 256 ≠ 0 ∧ (2 ^ k % 256) <<< 1 % 256 = 2 ^ (k + 1) % 256) ∧
    2 ^ 8 % 256 = 0 ∧
    ((∀ fuel, 9 ≤ fuel →
        ScanKb_rows kb fuel 1 0 rs = some ((List.range' 0 8).foldl (rowStep kb) rs)) ∧
      (∀ fuel, fuel ≤ 8 → ScanKb_rows kb fuel 1 0 rs = none)) ∧
    ((∀ fuel, 9 ≤ fuel → ScanKb_cols (keyscanOf kb r) r fuel 1 0 rs =
        some ((List.range' 0 8).foldl (fun rs c => keyStep kb rs (r, c)) rs)) ∧
      (∀ fuel, fuel ≤ 8 → ScanKb_cols (keyscanOf kb r) r fuel 1 0 rs = none)) ∧
    (keyscanOf kb r = kb (255 - 2 ^ r) % 256 ∧
      ∀ c, c < 8 → ((255 - 2 ^ r).testBit c = false ↔ c = r)) ∧
    (∃ ret s1, ScanKb kb s = some (ret, s1)) ∧
    (∀ c, c < 8 → ∃ k, matrixAt r c = some k) ∧
    (g_ucaKbMatrix.length = 8 ∧ ∀ row ∈ g_ucaKbMatrix, row.length = 8) := by
  refine ⟨?_, by decide, ⟨?_, ?_⟩, ⟨?_, ?_⟩, ⟨rfl, ?_⟩, ScanKb_total kb s, ?_, by decide⟩
  · intro k hk
    obtain ⟨h1, h2, -, -⟩ := mask_shift k hk
    exact ⟨h1, h2⟩
  · intro fuel hf
    have h := ScanKb_rows_eq kb 8 0 fuel rs rfl (by omega)
    simpa only [Nat.pow_zero, Nat.one_mod] using h
  · intro fuel hf
    have h := ScanKb_rows_fuel kb 8 0 fuel rs rfl hf
    simpa only [Nat.pow_zero, Nat.one_mod] using h
  · intro fuel hf
    have h := ScanKb_cols_eq kb r hr 8 0 fuel rs rfl (by omega)
    simpa only [Nat.pow_zero, Nat.one_mod] using h
  · intro fuel hf
    have h := ScanKb_cols_fuel kb r hr 8 0 fuel rs rfl hf
    simpa only [Nat.pow_zero, Nat.one_mod] using h
  · have : ∀ r, r < 8 → ∀ c, c < 8 → ((255 - 2 ^ r).testBit c = false ↔ c = r) := by decide
    exact this r hr
  · intro c hc
    exact ⟨_, matrixAt_eq r hr c hc⟩

theorem C19_scan_loops_bounded_witness :
    (3 < 8) ∧
    (ScanKb_rows kbShift1 9 1 0 (0, powerOn) =
        some ((List.range' 0 8).foldl (rowStep kbShift1) (0, powerOn)) ∧
      ScanKb_rows kbShift1 8 1 0 (0, powerOn) = none) ∧
    (ScanKb_cols (keyscanOf kbShift1 3) 3 9 1 0 (0, powerOn) =
        some ((List.range' 0 8).foldl (fun rs c => keyStep kbShift1 rs (3, c)) (0, powerOn)) ∧
      ScanKb_cols (keyscanOf kbShift1 3) 3 8 1 0 (0, powerOn) = none) :=
  ⟨by decide,
    ⟨(C19_scan_loops_bounded kbShift1 powerOn (0, powerOn) 3 (by decide)).2.2.1.1 9
        (Nat.le_refl _),
      (C19_scan_loops_bounded kbShift1 powerOn (0, powerOn) 3 (by decide)).2.2.1.2 8
        (Nat.le_refl _)⟩,
    ⟨(C19_scan_loops_bounded kbShift1 powerOn (0, powerOn) 3 (by decide)).2.2.2.1.1 9
        (Nat.le_refl _),
      (C19_scan_loops_bounded kbShift1 powerOn (0, powerOn) 3 (by decide)).2.2.2.1.2 8
        (Nat.le_refl _)⟩⟩

end TI99KB
